import Mathlib

/-!
Verification of the procedural polygon evolution engine of shape-studio
(`src/core/procedural.py`, parameter conversion in `src/core/param_converters.py`).

Modelling conventions, stated once here and referenced below:

* Boundary points are integer pixel pairs (`Pt := ℤ × ℤ`): the Python code
  rounds every point with `round` (banker's rounding, modelled exactly by
  `round_half_even`) immediately after construction/mutation, so every point
  that ever enters the boundary is an integer pair.
* Pre-rounding coordinates (the `random.uniform` draws, break points,
  centroids) are exact rationals (`QPt := ℚ × ℚ`).  Python computes with IEEE
  floats; the model idealises float arithmetic as exact rational arithmetic.
* Randomness is an explicit oracle: every `random.uniform` / `random.random` /
  `random.randint` / `random.choice` result is an input of the model.  Proofs
  quantify over all oracle values (a superset of the values the PRNG can
  produce), so safety theorems cover every real execution; concrete runs used
  as counterexamples only use oracle values the library calls can return.
* `math.sqrt` is irrational on most inputs, so it is passed in as a function
  parameter `sq : ℚ → ℚ`; theorems state the properties of the real square
  root they rely on as hypotheses (non-negativity, `sq 0 = 0`).  Where a
  quantity is only ever used as "some random draw in a range" (perpendicular
  unit vectors, offset distances, parametric half-widths `w / (2·len)`), the
  oracle supplies it directly, as documented at each operation.
* Python exceptions are `Except String`; the evolution driver catches
  per-attempt exceptions exactly where the source's `try/except` does.
-/

namespace ShapeStudio

/-- Boundary point: integer pixel coordinates (all boundary points are rounded). -/
abbrev Pt := ℤ × ℤ

/-- Pre-rounding coordinate pair (floats in Python, exact rationals here). -/
abbrev QPt := ℚ × ℚ

/-- Python's `round` on a real value: round half to even (banker's rounding).
`round(2.5) = 2`, `round(3.5) = 4`, `round(-2.5) = -2`. -/
def round_half_even (q : ℚ) : ℤ :=
  if q - (⌊q⌋ : ℚ) < 1/2 then ⌊q⌋
  else if 1/2 < q - (⌊q⌋ : ℚ) then ⌊q⌋ + 1
  else if Even ⌊q⌋ then ⌊q⌋ else ⌊q⌋ + 1

/-- `_round_point`: round both coordinates to integer pixel coordinates. -/
def round_point (p : QPt) : Pt := (round_half_even p.1, round_half_even p.2)

/-- Bounds rectangle `(x1, y1, x2, y2)`, integer-valued (produced by
`bounds_converter`, which builds a 4-tuple of ints). -/
structure Bounds where
  x1 : ℤ
  y1 : ℤ
  x2 : ℤ
  y2 : ℤ
deriving DecidableEq, Repr

/-- `_is_within_bounds`: `x1 <= x <= x2 and y1 <= y <= y2`. -/
def is_within_bounds (p : Pt) (b : Bounds) : Bool :=
  decide (b.x1 ≤ p.1 ∧ p.1 ≤ b.x2 ∧ b.y1 ≤ p.2 ∧ p.2 ≤ b.y2)

/-- `ccw(A, B, C)` from `_segments_intersect`:
`(C[1]-A[1])*(B[0]-A[0]) > (B[1]-A[1])*(C[0]-A[0])` (exact integer arithmetic). -/
def ccw (A B C : Pt) : Bool :=
  decide ((C.2 - A.2) * (B.1 - A.1) > (B.2 - A.2) * (C.1 - A.1))

/-- `_segments_intersect`: strict orientation test, endpoint touches excluded. -/
def segments_intersect (p1 p2 p3 p4 : Pt) : Bool :=
  (ccw p1 p3 p4 != ccw p2 p3 p4) && (ccw p1 p2 p3 != ccw p1 p2 p4)

/-- `_is_valid_polygon`: `False` for fewer than 3 points; otherwise for every
`i` and every `j in range(i+2, n)`, skipping the wrap-around pair
`(0, n-1)`, the two edges must not intersect. -/
def is_valid_polygon (ps : List Pt) : Bool :=
  let n := ps.length
  if n < 3 then false
  else (List.range n).all fun i =>
    ((List.range n).filter (fun j => i + 2 ≤ j)).all fun j =>
      if i == 0 && j == n - 1 then true
      else !(segments_intersect (ps.getD i (0,0)) (ps.getD ((i+1) % n) (0,0))
              (ps.getD j (0,0)) (ps.getD ((j+1) % n) (0,0)))

/-- `_compute_centroid` on the (integer) boundary: arithmetic mean of the
coordinates, an exact rational. -/
def compute_centroid (ps : List Pt) : QPt :=
  ((ps.map (fun p => (p.1 : ℚ))).sum / (ps.length : ℚ),
   (ps.map (fun p => (p.2 : ℚ))).sum / (ps.length : ℚ))

/-- Centroid of the raw (pre-rounding) vertex draws, used by `_connect_angle_sort`. -/
def q_centroid (ps : List QPt) : QPt :=
  ((ps.map Prod.fst).sum / (ps.length : ℚ),
   (ps.map Prod.snd).sum / (ps.length : ℚ))

/-- Rank of `atan2(y, x)`'s value in `(-π, π]` by half-plane:
`y < 0` gives `(-π, 0)`; `y = 0, x ≥ 0` gives `0` (`atan2(0,0) = 0` in Python);
`y > 0` gives `(0, π)`; `y = 0, x < 0` gives `π`. -/
def angle_rank (v : QPt) : ℕ :=
  if v.2 < 0 then 0
  else if v.2 = 0 ∧ 0 ≤ v.1 then 1
  else if 0 < v.2 then 2
  else 3

/-- Cross product of two rational vectors. -/
def cross_q (u v : QPt) : ℚ := u.1 * v.2 - u.2 * v.1

/-- Exact comparison `atan2(p - c) < atan2(q - c)`: compare half-plane ranks,
and inside the open half-planes (ranks 0 and 2, where the angular difference
is below π) compare by the sign of the cross product. -/
def angle_lt (c p q : QPt) : Bool :=
  let u : QPt := (p.1 - c.1, p.2 - c.2)
  let v : QPt := (q.1 - c.1, q.2 - c.2)
  if angle_rank u < angle_rank v then true
  else if angle_rank v < angle_rank u then false
  else (angle_rank u == 0 || angle_rank u == 2) && decide (0 < cross_q u v)

/-- `_connect_angle_sort`: stable sort of the draws by polar angle around
their centroid (Python's `sorted` with an `atan2` key, modelled exactly). -/
def connect_angle_sort (ps : List QPt) : List QPt :=
  let c := q_centroid ps
  ps.mergeSort fun p q => !(angle_lt c q p)

/-- `_connect_vertices`: `convex_hull` is aliased to angle sort in the source
(`_connect_convex_hull` just calls `_connect_angle_sort`). -/
def connect_vertices (ps : List QPt) (method : String) : Except String (List QPt) :=
  if method = "angle_sort" then .ok (connect_angle_sort ps)
  else if method = "convex_hull" then .ok (connect_angle_sort ps)
  else .error "Unknown connection method"

/-- Squared distance between two boundary points, as a rational (the argument
the source passes to `math.sqrt`). -/
def dist_sq (p q : Pt) : ℚ := (((q.1 - p.1)^2 + (q.2 - p.2)^2 : ℤ) : ℚ)

/-- The per-edge lengths computed at the top of `_select_segment`:
`sqrt((p2.x-p1.x)² + (p2.y-p1.y)²)` for each edge `i → (i+1) % n`. -/
def seg_lengths (sq : ℚ → ℚ) (ps : List Pt) : List ℚ :=
  (List.range ps.length).map fun i =>
    sq (dist_sq (ps.getD i (0,0)) (ps.getD ((i+1) % ps.length) (0,0)))

/-- The `eligible_indices` list of `_select_segment`: edges whose length is
at least `min_segment_length`. -/
def eligible_indices (sq : ℚ → ℚ) (ps : List Pt) (minSeg : ℤ) : List ℕ :=
  (List.range ps.length).filter fun i =>
    decide ((minSeg : ℚ) ≤ (seg_lengths sq ps).getD i 0)

/-- The cumulative-sum walk of `_select_segment`: first index whose running
total reaches the draw `r`. -/
def cumulative_walk (r : ℚ) : ℚ → List (ℕ × ℚ) → Option ℕ
  | _, [] => none
  | cum, il :: rest =>
      if r ≤ cum + il.2 then some il.1 else cumulative_walk r (cum + il.2) rest

/-- The `if not eligible_indices: eligible_indices = list(range(n))`
reassignment of `_select_segment`. -/
def fallback_indices (sq : ℚ → ℚ) (ps : List Pt) (minSeg : ℤ) : List ℕ :=
  if eligible_indices sq ps minSeg = [] then List.range ps.length
  else eligible_indices sq ps minSeg

/-- `_select_segment`.  Oracle inputs: `r` is the `random.uniform(0, total)`
draw and `k` the `random.randint(0, n-1)` draw of the degenerate branch.
Structure as in the source: compute lengths; restrict to eligible edges,
falling back to all edges if none qualify; if the total is zero return the
uniform index; otherwise walk the cumulative sums, with the last eligible
index as final fallback. -/
def select_segment (sq : ℚ → ℚ) (ps : List Pt) (minSeg : ℤ) (r : ℚ) (k : ℕ) : ℕ :=
  let n := ps.length
  let lengths := seg_lengths sq ps
  let elig := fallback_indices sq ps minSeg
  let eligLens := elig.map fun i => lengths.getD i 0
  let total := eligLens.sum
  if total = 0 then k
  else
    match cumulative_walk r 0 (elig.zip eligLens) with
    | some i => i
    | none => elig.getLastD (n - 1)

/-- Per-attempt randomness oracle.  Fields cover the draws of all five
operations; each operation reads only the ones its source uses:
`t` — `random.uniform(break_margin, 1-break_margin)` (break position);
`tDelta` — the half break-width in parametric units, `half_width/seg_length`
  (the source draws `break_width = uniform(0, max_width)` and divides by the
  irrational `seg_length`; the oracle supplies the quotient directly);
`perp` — the unit perpendicular from `_get_perpendicular_direction` after the
  bias flip (irrational normalisation, supplied by the oracle);
`offset`, `offset2` — the `random.uniform` projection distances;
`coin1`, `coin2` — the `random.random()` draws of squarewave's direction flips;
`choice` — the `random.choice` position for `distort_original`;
`u` — the `random.uniform(0.1, 0.3)` draw of `distort_original`. -/
structure AttemptOracle where
  t : ℚ := 0
  tDelta : ℚ := 0
  perp : QPt := (0, 0)
  offset : ℚ := 0
  offset2 : ℚ := 0
  coin1 : ℚ := 1
  coin2 : ℚ := 1
  choice : ℕ := 0
  u : ℚ := 0

/-- `_op_split_offset`: one break point along the edge, projected along the
perpendicular, rounded, bounds-checked, then inserted after `idx`.
(`seg_length`/`break_width` only shape the oracle draw ranges and are not
otherwise used, so they do not appear.) -/
def op_split_offset (points : List Pt) (idx : ℕ) (a : AttemptOracle)
    (bounds : Bounds) : Except String (List Pt) :=
  let n := points.length
  let p1 := points.getD idx (0,0)
  let p2 := points.getD ((idx+1) % n) (0,0)
  let breakX : ℚ := (p1.1 : ℚ) + a.t * ((p2.1 : ℚ) - (p1.1 : ℚ))
  let breakY : ℚ := (p1.2 : ℚ) + a.t * ((p2.2 : ℚ) - (p1.2 : ℚ))
  let newPoint := round_point (breakX + a.perp.1 * a.offset, breakY + a.perp.2 * a.offset)
  if is_within_bounds newPoint bounds then
    .ok (points.take (idx+1) ++ [newPoint] ++ points.drop (idx+1))
  else .error "Point outside bounds"

/-- `_op_sawtooth`: three points (left base, peak, right base) at parametric
positions `t ∓ tDelta` and the peak projected from the centre; all three are
rounded and bounds-checked, then inserted after `idx`. -/
def op_sawtooth (points : List Pt) (idx : ℕ) (a : AttemptOracle)
    (bounds : Bounds) : Except String (List Pt) :=
  let n := points.length
  let p1 := points.getD idx (0,0)
  let p2 := points.getD ((idx+1) % n) (0,0)
  let ex : ℚ := (p2.1 : ℚ) - (p1.1 : ℚ)
  let ey : ℚ := (p2.2 : ℚ) - (p1.2 : ℚ)
  let centerX : ℚ := (p1.1 : ℚ) + a.t * ex
  let centerY : ℚ := (p1.2 : ℚ) + a.t * ey
  let baseLeft := round_point ((p1.1 : ℚ) + (a.t - a.tDelta) * ex,
                               (p1.2 : ℚ) + (a.t - a.tDelta) * ey)
  let peak := round_point (centerX + a.perp.1 * a.offset, centerY + a.perp.2 * a.offset)
  let baseRight := round_point ((p1.1 : ℚ) + (a.t + a.tDelta) * ex,
                                (p1.2 : ℚ) + (a.t + a.tDelta) * ey)
  if is_within_bounds baseLeft bounds && is_within_bounds peak bounds &&
     is_within_bounds baseRight bounds then
    .ok (points.take (idx+1) ++ [baseLeft, peak, baseRight] ++ points.drop (idx+1))
  else .error "Point outside bounds"

/-- The per-side direction choice of `_op_squarewave`: with independent
directions, flip the shared perpendicular when the `random.random()` draw
falls below `opposite_prob`. -/
def flip_perp (independentDirections : Bool) (coin oppositeProb : ℚ) (perp : QPt) : QPt :=
  if independentDirections ∧ coin < oppositeProb then (-perp.1, -perp.2) else perp

/-- `_op_squarewave`: four points (base-left, top-left, top-right, base-right);
with `independent_directions` each top point flips the shared perpendicular
when its `random.random()` draw falls below `opposite_prob`. -/
def op_squarewave (points : List Pt) (idx : ℕ) (independentDirections : Bool)
    (oppositeProb : ℚ) (a : AttemptOracle) (bounds : Bounds) :
    Except String (List Pt) :=
  let n := points.length
  let p1 := points.getD idx (0,0)
  let p2 := points.getD ((idx+1) % n) (0,0)
  let ex : ℚ := (p2.1 : ℚ) - (p1.1 : ℚ)
  let ey : ℚ := (p2.2 : ℚ) - (p1.2 : ℚ)
  let baseLeftX : ℚ := (p1.1 : ℚ) + (a.t - a.tDelta) * ex
  let baseLeftY : ℚ := (p1.2 : ℚ) + (a.t - a.tDelta) * ey
  let baseRightX : ℚ := (p1.1 : ℚ) + (a.t + a.tDelta) * ex
  let baseRightY : ℚ := (p1.2 : ℚ) + (a.t + a.tDelta) * ey
  let leftPerp : QPt := flip_perp independentDirections a.coin1 oppositeProb a.perp
  let rightPerp : QPt := flip_perp independentDirections a.coin2 oppositeProb a.perp
  let baseLeft := round_point (baseLeftX, baseLeftY)
  let topLeft := round_point (baseLeftX + leftPerp.1 * a.offset, baseLeftY + leftPerp.2 * a.offset)
  let topRight := round_point (baseRightX + rightPerp.1 * a.offset2, baseRightY + rightPerp.2 * a.offset2)
  let baseRight := round_point (baseRightX, baseRightY)
  if is_within_bounds baseLeft bounds && is_within_bounds topLeft bounds &&
     is_within_bounds topRight bounds && is_within_bounds baseRight bounds then
    .ok (points.take (idx+1) ++ [baseLeft, topLeft, topRight, baseRight] ++ points.drop (idx+1))
  else .error "Point outside bounds"

/-- Python `list.remove`: delete the first occurrence of a value, no-op when
absent (the source guards with `if removed_point in new_distortable`, which
gives exactly this behaviour). -/
def remove_first : List Pt → Pt → List Pt
  | [], _ => []
  | x :: xs, a => if x = a then xs else x :: remove_first xs a

/-- `_op_remove_point`: refuse when `len(points) <= 3`; otherwise delete the
vertex at `idx` (`points[:idx] + points[idx+1:]`, i.e. `eraseIdx`) and remove
that point's first occurrence from the distortable list if present. -/
def op_remove_point (points : List Pt) (idx : ℕ) (distortable : List Pt) :
    Except String (List Pt × List Pt) :=
  if points.length ≤ 3 then
    .error "Cannot remove point - polygon must have at least 3 vertices"
  else
    let removedPoint := points.getD idx (0,0)
    .ok (points.eraseIdx idx, remove_first distortable removedPoint)

/-- Python `list.index`: position of the first occurrence of a value; equals
the list's length when the value is absent (Python raises there, and the
callers below branch on exactly that condition). -/
def index_of_pt : List Pt → Pt → ℕ
  | [], _ => 0
  | x :: xs, a => if x = a then 0 else index_of_pt xs a + 1

/-- `_op_distort_original`: pick a distortable point (`random.choice`, via the
oracle position `a.choice`), locate it in the boundary (`points.index`,
raising if absent), and move it along the centroid ray.  The source computes
`distance = sqrt(dx²+dy²)` and moves by `(d/distance) * (distance * u *
projection_max)`; the square root cancels, so the update is exactly rational:
`old ∓ d * (u * projection_max)`.  `distance == 0` is exactly `dx = dy = 0`,
in which case copies of the inputs are returned unchanged. -/
def op_distort_original (points : List Pt) (projectionMax : ℚ) (directionBias : String)
    (centroid : QPt) (bounds : Bounds) (distortable : List Pt) (a : AttemptOracle) :
    Except String (List Pt × List Pt) :=
  if distortable.length = 0 then .error "No distortable points available"
  else
    let oldCoord := distortable.getD (a.choice % distortable.length) (0,0)
    if _hp : index_of_pt points oldCoord < points.length then
      let pointIdx := index_of_pt points oldCoord
      let dx : ℚ := (oldCoord.1 : ℚ) - centroid.1
      let dy : ℚ := (oldCoord.2 : ℚ) - centroid.2
      if dx = 0 ∧ dy = 0 then .ok (points, distortable)
      else
        let moveFrac : ℚ := a.u * projectionMax
        let newQ : QPt :=
          if directionBias = "inward" then
            ((oldCoord.1 : ℚ) - dx * moveFrac, (oldCoord.2 : ℚ) - dy * moveFrac)
          else
            ((oldCoord.1 : ℚ) + dx * moveFrac, (oldCoord.2 : ℚ) + dy * moveFrac)
        let newCoord := round_point newQ
        if is_within_bounds newCoord bounds then
          .ok (points.set pointIdx newCoord,
               distortable.set (index_of_pt distortable oldCoord) newCoord)
        else .error "Point outside bounds"
    else .error "Distortable point not found in current polygon"

/-- `_apply_operation`: string dispatch.  The source has no `else` branch and
returns `None` for an unknown name; the caller's tuple unpacking then raises
`TypeError`, caught by the driver's `except` — modelled as an error. -/
def apply_operation (operation : String) (points : List Pt) (idx : ℕ)
    (projectionMax : ℚ) (directionBias : String) (centroid : QPt) (bounds : Bounds)
    (distortable : List Pt) (independentDirections : Bool) (oppositeProb : ℚ)
    (a : AttemptOracle) : Except String (List Pt × List Pt) :=
  if operation = "split_offset" then
    (op_split_offset points idx a bounds).map fun np => (np, distortable)
  else if operation = "sawtooth" then
    (op_sawtooth points idx a bounds).map fun np => (np, distortable)
  else if operation = "squarewave" then
    (op_squarewave points idx independentDirections oppositeProb a bounds).map
      fun np => (np, distortable)
  else if operation = "remove_point" then
    op_remove_point points idx distortable
  else if operation = "distort_original" then
    op_distort_original points projectionMax directionBias centroid bounds distortable a
  else .error "TypeError: cannot unpack None"

/-- The resolved generation parameters consumed by `dynamic_polygon`
(`break_margin` and `break_width_max` only bound oracle draw ranges and are
not consumed elsewhere, so they are not fields). -/
structure Params where
  iterations : ℕ
  maxRetries : ℕ
  operations : List (String × ℚ)
  bounds : Bounds
  connect : String := "angle_sort"
  minSegLength : ℤ := 10
  projectionMax : ℚ := 2
  directionBias : String := "random"
  independentDirections : Bool := false
  oppositeProb : ℚ := 1/5
  saveIterations : Bool := false
  snapshotInterval : ℕ := 1

/-- The `stats` dict of `dynamic_polygon`: success/failure counters and the
per-operation usage counts (`operations_used`, an assoc list standing for the
dict built from the operation names). -/
structure Stats where
  succ : ℕ
  failed : ℕ
  opsUsed : List (String × ℕ)
deriving DecidableEq, Repr

/-- `stats['operations_used'][operation] += 1`: bump the first entry with the
given key (dict keys are unique, so first-match update is dict update).
A missing key would raise `KeyError` in Python; it cannot occur because the
chosen operation always comes from the list the dict was built from. -/
def bump_op : List (String × ℕ) → String → List (String × ℕ)
  | [], _ => []
  | kv :: rest, op =>
      if kv.1 = op then (kv.1, kv.2 + 1) :: rest else kv :: bump_op rest op

/-- One snapshot polygon.  `points` is the `current_points[:]` copy (tuples
are immutable, so the point list really is independent).  `succAtEmit` /
`failedAtEmit` are the integer counters copied by `stats.copy()`.
`opsUsedAtEmit` is a ghost field recording the value the shared
`operations_used` dict had at emission time: `stats.copy()` is shallow, so
every snapshot's `stats['operations_used']` is one and the same dict object
as the live `stats['operations_used']`, and what a caller reads there after
the call is the final value, not this one. -/
structure Snapshot where
  iter : ℕ
  points : List Pt
  succAtEmit : ℕ
  failedAtEmit : ℕ
  opsUsedAtEmit : List (String × ℕ)
deriving DecidableEq, Repr

/-- The evolution driver's loop state. -/
structure DState where
  points : List Pt
  distortable : List Pt
  centroid : QPt
  stats : Stats
  snapshots : List Snapshot
deriving DecidableEq, Repr

/-- Per-iteration randomness oracle: the segment-selection draws, the
`random.choices` position for the weighted operation choice, and one
`AttemptOracle` per retry. -/
structure IterOracle where
  segR : ℚ := 0
  segK : ℕ := 0
  opIdx : ℕ := 0
  att : ℕ → AttemptOracle := fun _ => {}

/-- The positive-weight operations (`eligible_ops`) of one iteration. -/
def eligible_ops (P : Params) : List (String × ℚ) :=
  P.operations.filter fun ow => decide (0 < ow.2)

/-- The operation name `random.choices` returns: an oracle-chosen element of
the (nonempty) positive-weight list. -/
def chosen_op (P : Params) (o : IterOracle) : String :=
  ((eligible_ops P).getD (o.opIdx % (eligible_ops P).length) ("", 0)).1

/-- The retry loop of one iteration (`for attempt in range(max_retries)`).
Each attempt applies the operation; an exception or an invalid candidate
increments `failed_attempts` and retries; a valid candidate increments
`successful_modifications` and the operation's usage counter and stops.
Returns the final stats and the accepted `(points, distortable)` if any. -/
def run_attempts (P : Params) (operation : String) (segIdx : ℕ) (st : DState)
    (att : ℕ → AttemptOracle) :
    ℕ → ℕ → Stats → Stats × Option (List Pt × List Pt)
  | _, 0, stats => (stats, none)
  | i, fuel + 1, stats =>
      match apply_operation operation st.points segIdx P.projectionMax
          P.directionBias st.centroid P.bounds st.distortable
          P.independentDirections P.oppositeProb (att i) with
      | .error _ =>
          run_attempts P operation segIdx st att (i+1) fuel
            { stats with failed := stats.failed + 1 }
      | .ok (newPoints, newDistortable) =>
          if is_valid_polygon newPoints then
            ({ stats with succ := stats.succ + 1,
                          opsUsed := bump_op stats.opsUsed operation },
             some (newPoints, newDistortable))
          else
            run_attempts P operation segIdx st att (i+1) fuel
              { stats with failed := stats.failed + 1 }

/-- Build the snapshot record for iteration `it` from the current state. -/
def mk_snapshot (it : ℕ) (st : DState) : Snapshot :=
  { iter := it, points := st.points, succAtEmit := st.stats.succ,
    failedAtEmit := st.stats.failed, opsUsedAtEmit := st.stats.opsUsed }

/-- One iteration of the evolution loop: select a segment, choose a weighted
operation (raising `ValueError` when no operation has positive weight — the
only uncaught error inside the loop), run the retry loop, install the
accepted state (recomputing the centroid) or leave the state unchanged, and
append the `(iteration+1) % snapshot_interval == 0` snapshot.
(`snapshot_interval = 0` would raise `ZeroDivisionError` in Python; `ℕ`'s
`% 0` quietly skips the snapshot — never exercised here.)  In the source the
segment is selected before the weight check; both are pure, so the order is
immaterial and the selection is named separately here as `iter_seg`. -/
def iter_seg (sq : ℚ → ℚ) (P : Params) (st : DState) (o : IterOracle) : ℕ :=
  select_segment sq st.points P.minSegLength o.segR o.segK

/-- The whole retry loop of one iteration, on the chosen segment and the
weighted-chosen operation. -/
def iter_attempts (sq : ℚ → ℚ) (P : Params) (st : DState) (o : IterOracle) :
    Stats × Option (List Pt × List Pt) :=
  run_attempts P (chosen_op P o) (iter_seg sq P st o) st o.att 0 P.maxRetries st.stats

/-- One iteration of the evolution loop: the weight check, the retry loop,
state installation on acceptance (with recomputed centroid), and the
periodic snapshot — see the comment on `iter_seg` above. -/
def run_iteration (sq : ℚ → ℚ) (P : Params) (st : DState) (o : IterOracle)
    (iterNum : ℕ) : Except String DState :=
  if (eligible_ops P).length = 0 then
    .error "No operations with positive weights available"
  else
    let (stats', accepted) := iter_attempts sq P st o
    let st' : DState :=
      match accepted with
      | some (newPoints, newDistortable) =>
          { st with points := newPoints, distortable := newDistortable,
                    centroid := compute_centroid newPoints, stats := stats' }
      | none => { st with stats := stats' }
    let st'' : DState :=
      if P.saveIterations ∧ (iterNum + 1) % P.snapshotInterval = 0 then
        { st' with snapshots := st'.snapshots ++ [mk_snapshot (iterNum + 1) st'] }
      else st'
    .ok st''

/-- `for iteration in range(iterations)`, threading the state; an uncaught
error aborts the whole call. -/
def run_loop (sq : ℚ → ℚ) (P : Params) (oracles : ℕ → IterOracle) :
    ℕ → ℕ → DState → Except String DState
  | _, 0, st => .ok st
  | iterNum, remaining + 1, st =>
      match run_iteration sq P st (oracles iterNum) iterNum with
      | .error e => .error e
      | .ok st' => run_loop sq P oracles (iterNum + 1) remaining st'

/-- Phases 1–2 and the pre-loop setup of `dynamic_polygon`: round the
connected draws, copy them into the distortable list, zero the statistics
(keys from the operation list), compute the centroid, and emit the
iteration-0 snapshot when snapshotting. -/
def initial_state (P : Params) (connected : List QPt) : DState :=
  let rounded := connected.map round_point
  let stats0 : Stats :=
    { succ := 0, failed := 0, opsUsed := P.operations.map fun ow => (ow.1, 0) }
  let st : DState :=
    { points := rounded, distortable := rounded,
      centroid := compute_centroid rounded, stats := stats0, snapshots := [] }
  if P.saveIterations then { st with snapshots := [mk_snapshot 0 st] } else st

/-- What `dynamic_polygon` hands back.  `procIsFinal` models whether the MAIN
polygon's `attrs['procedure']` dict carries `is_final = True` after the call:
`final_snapshot.attrs = polygon.attrs.copy()` is a shallow copy, so
`final_snapshot.attrs['procedure']` IS `polygon.attrs['procedure']`, and the
subsequent `final_snapshot.attrs['procedure']['is_final'] = True` marks both;
the model therefore reports `true` exactly when the snapshot branch ran. -/
structure Output where
  points : List Pt
  stats : Stats
  snapshots : List Snapshot
  finalSnapshot : Option Snapshot
  procIsFinal : Bool
deriving DecidableEq, Repr

/-- `dynamic_polygon`, from the vertex draws onward (`num_vertices` and the
uniform draws are resolved upstream; `draws` is the produced point list).
Connect, round, evolve, then assemble the output, appending the `_final`
snapshot when snapshotting. -/
def dynamic_polygon (sq : ℚ → ℚ) (P : Params) (draws : List QPt)
    (oracles : ℕ → IterOracle) : Except String Output :=
  match connect_vertices draws P.connect with
  | .error e => .error e
  | .ok connected =>
    match run_loop sq P oracles 0 P.iterations (initial_state P connected) with
    | .error e => .error e
    | .ok st =>
        .ok { points := st.points
            , stats := st.stats
            , snapshots := st.snapshots
            , finalSnapshot :=
                if P.saveIterations then some (mk_snapshot P.iterations st) else none
            , procIsFinal := P.saveIterations }

/-- `convert_weighted_list` on an already-typed weighted list (the claim's
input shape; the string branches re-parse text into this same shape).  The
source checks: non-empty; every weight non-negative; every name among
`choices`.  There is no total-weight check.  Valid input is returned as is. -/
def convert_weighted_list (value : List (String × ℚ)) (choices : List String) :
    Except String (List (String × ℚ)) :=
  if value.length = 0 then .error "Operations list cannot be empty"
  else
    match value.find? (fun ow => decide (ow.2 < 0)) with
    | some ow => .error ("Weight for " ++ ow.1 ++ " must be non-negative")
    | none =>
        match value.find? (fun ow => !(choices.contains ow.1)) with
        | some ow => .error ("Unknown operation " ++ ow.1)
        | none => .ok value

/-- The `choices` list of the `operations` parameter spec. -/
def operation_choices : List String :=
  ["split_offset", "sawtooth", "squarewave", "remove_point", "distort_original"]

/-! ### Helper lemmas: rounding, membership, per-operation bounds -/

/-- Rounding a rational lying between two integers stays between them:
`round` is monotone and fixes integers. -/
theorem round_half_even_bounds {x1 x2 : ℤ} {q : ℚ} (h1 : (x1 : ℚ) ≤ q)
    (h2 : q ≤ (x2 : ℚ)) : x1 ≤ round_half_even q ∧ round_half_even q ≤ x2 := by
  have hf1 : x1 ≤ ⌊q⌋ := Int.le_floor.mpr h1
  have hf2 : ⌊q⌋ ≤ x2 := by
    have h := Int.floor_le_floor h2
    simpa using h
  have key : ¬(q - (⌊q⌋ : ℚ) < 1/2) → ⌊q⌋ < x2 := by
    intro h
    have h' : (1 : ℚ)/2 ≤ q - (⌊q⌋ : ℚ) := not_lt.mp h
    by_contra hc
    have hx : (x2 : ℚ) ≤ ((⌊q⌋ : ℤ) : ℚ) := by exact_mod_cast not_lt.mp hc
    linarith
  unfold round_half_even
  split
  · exact ⟨hf1, hf2⟩
  next h =>
    have hlt := key h
    split
    · omega
    · split
      · exact ⟨hf1, hf2⟩
      · omega

/-- A pre-rounding point inside the (integer) bounds rectangle is still
inside it after rounding. -/
theorem round_point_in_bounds {b : Bounds} {p : QPt}
    (hx1 : (b.x1 : ℚ) ≤ p.1) (hx2 : p.1 ≤ (b.x2 : ℚ))
    (hy1 : (b.y1 : ℚ) ≤ p.2) (hy2 : p.2 ≤ (b.y2 : ℚ)) :
    is_within_bounds (round_point p) b = true := by
  have h1 := round_half_even_bounds hx1 hx2
  have h2 := round_half_even_bounds hy1 hy2
  simp only [is_within_bounds, round_point, decide_eq_true_eq]
  exact ⟨h1.1, h1.2, h2.1, h2.2⟩

/-- Angle-sorting permutes the draws, so membership is unchanged. -/
theorem mem_connect_angle_sort {p : QPt} {ps : List QPt} :
    p ∈ connect_angle_sort ps ↔ p ∈ ps := by
  unfold connect_angle_sort
  exact List.mem_mergeSort

/-- Every point of a successful `split_offset` result is an old point or has
passed the bounds check. -/
theorem op_split_offset_mem {points : List Pt} {idx : ℕ} {a : AttemptOracle}
    {bounds : Bounds} {np : List Pt}
    (h : op_split_offset points idx a bounds = .ok np) :
    ∀ x ∈ np, x ∈ points ∨ is_within_bounds x bounds = true := by
  unfold op_split_offset at h
  dsimp only at h
  split at h
  next hb =>
    injection h with h
    subst h
    intro x hx
    simp only [List.append_assoc, List.mem_append, List.mem_singleton] at hx
    rcases hx with hx | rfl | hx
    · exact Or.inl (List.take_subset _ _ hx)
    · exact Or.inr hb
    · exact Or.inl (List.drop_subset _ _ hx)
  · exact absurd h (by simp)

/-- Every point of a successful `sawtooth` result is an old point or has
passed the bounds check. -/
theorem op_sawtooth_mem {points : List Pt} {idx : ℕ} {a : AttemptOracle}
    {bounds : Bounds} {np : List Pt}
    (h : op_sawtooth points idx a bounds = .ok np) :
    ∀ x ∈ np, x ∈ points ∨ is_within_bounds x bounds = true := by
  unfold op_sawtooth at h
  dsimp only at h
  split at h
  next hb =>
    rw [Bool.and_eq_true, Bool.and_eq_true] at hb
    injection h with h
    subst h
    intro x hx
    simp only [List.append_assoc, List.mem_append, List.mem_cons,
      List.mem_singleton, List.not_mem_nil, or_false] at hx
    rcases hx with hx | (rfl | rfl | rfl) | hx
    · exact Or.inl (List.take_subset _ _ hx)
    · exact Or.inr hb.1.1
    · exact Or.inr hb.1.2
    · exact Or.inr hb.2
    · exact Or.inl (List.drop_subset _ _ hx)
  · exact absurd h (by simp)

/-- Every point of a successful `squarewave` result is an old point or has
passed the bounds check. -/
theorem op_squarewave_mem {points : List Pt} {idx : ℕ} {indep : Bool}
    {oppProb : ℚ} {a : AttemptOracle} {bounds : Bounds} {np : List Pt}
    (h : op_squarewave points idx indep oppProb a bounds = .ok np) :
    ∀ x ∈ np, x ∈ points ∨ is_within_bounds x bounds = true := by
  unfold op_squarewave at h
  dsimp only at h
  split at h
  next hb =>
    rw [Bool.and_eq_true, Bool.and_eq_true, Bool.and_eq_true] at hb
    injection h with h
    subst h
    intro x hx
    simp only [List.append_assoc, List.mem_append, List.mem_cons,
      List.mem_singleton, List.not_mem_nil, or_false] at hx
    rcases hx with hx | (rfl | rfl | rfl | rfl) | hx
    · exact Or.inl (List.take_subset _ _ hx)
    · exact Or.inr hb.1.1.1
    · exact Or.inr hb.1.1.2
    · exact Or.inr hb.1.2
    · exact Or.inr hb.2
    · exact Or.inl (List.drop_subset _ _ hx)
  · exact absurd h (by simp)

/-- Every point of a successful `remove_point` result was already a boundary
point. -/
theorem op_remove_point_mem {points : List Pt} {idx : ℕ} {distortable : List Pt}
    {pr : List Pt × List Pt}
    (h : op_remove_point points idx distortable = .ok pr) :
    ∀ x ∈ pr.1, x ∈ points := by
  unfold op_remove_point at h
  dsimp only at h
  split at h
  · exact absurd h (by simp)
  · injection h with h
    subst h
    exact fun x hx => List.eraseIdx_subset _ _ hx

/-- Every point of a successful `distort_original` result is an old point or
has passed the bounds check. -/
theorem op_distort_original_mem {points : List Pt} {projectionMax : ℚ}
    {directionBias : String} {centroid : QPt} {bounds : Bounds}
    {distortable : List Pt} {a : AttemptOracle} {pr : List Pt × List Pt}
    (h : op_distort_original points projectionMax directionBias centroid bounds
          distortable a = .ok pr) :
    ∀ x ∈ pr.1, x ∈ points ∨ is_within_bounds x bounds = true := by
  unfold op_distort_original at h
  dsimp only at h
  split at h
  · exact absurd h (by simp)
  split at h
  · split at h
    · injection h with h
      subst h
      exact fun x hx => Or.inl hx
    · split at h
      · split at h
        next hb =>
          injection h with h
          subst h
          intro x hx
          rcases List.mem_or_eq_of_mem_set hx with hx | rfl
          · exact Or.inl hx
          · exact Or.inr hb
        next => exact absurd h (by simp)
      · split at h
        next hb =>
          injection h with h
          subst h
          intro x hx
          rcases List.mem_or_eq_of_mem_set hx with hx | rfl
          · exact Or.inl hx
          · exact Or.inr hb
        next => exact absurd h (by simp)
  · exact absurd h (by simp)



/-! ### Multiset bookkeeping for the distortable-set invariant -/

/-- `remove_first` is `Multiset.erase` on the underlying multisets. -/
theorem coe_remove_first (d : List Pt) (a : Pt) :
    ((remove_first d a : List Pt) : Multiset Pt) = Multiset.erase (d : Multiset Pt) a := by
  induction d with
  | nil => rfl
  | cons x xs ih =>
      by_cases hx : x = a
      · subst hx
        rw [remove_first, if_pos rfl, ← Multiset.cons_coe, Multiset.erase_cons_head]
      · rw [remove_first, if_neg hx, ← Multiset.cons_coe, ← Multiset.cons_coe,
          Multiset.erase_cons_tail _ hx, ih]

/-- `index_of_pt` stays below the length exactly on members. -/
theorem index_of_pt_lt_length {l : List Pt} {a : Pt} (h : a ∈ l) :
    index_of_pt l a < l.length := by
  induction l with
  | nil => cases h
  | cons x xs ih =>
      rw [index_of_pt]
      by_cases hx : x = a
      · rw [if_pos hx]
        simp
      · rw [if_neg hx]
        have : a ∈ xs := by
          cases h with
          | head => exact absurd rfl hx
          | tail _ h => exact h
        simpa using ih this

/-- If `index_of_pt` is below the length, the value is a member. -/
theorem mem_of_index_of_pt_lt {l : List Pt} {a : Pt}
    (h : index_of_pt l a < l.length) : a ∈ l := by
  induction l with
  | nil => simp [index_of_pt] at h
  | cons x xs ih =>
      rw [index_of_pt] at h
      by_cases hx : x = a
      · exact hx ▸ List.mem_cons_self x xs
      · rw [if_neg hx] at h
        exact List.mem_cons_of_mem _ (ih (by simpa using h))

/-- `index_of_pt` finds the value it indexes. -/
theorem getD_index_of_pt {l : List Pt} {a : Pt} (h : a ∈ l) :
    l.getD (index_of_pt l a) (0,0) = a := by
  induction l with
  | nil => cases h
  | cons x xs ih =>
      rw [index_of_pt]
      by_cases hx : x = a
      · rw [if_pos hx]
        simpa using hx
      · rw [if_neg hx]
        have : a ∈ xs := by
          cases h with
          | head => exact absurd rfl hx
          | tail _ h => exact h
        simpa using ih this

/-- Erasing index `i` and putting the element back is the identity, as
multisets. -/
theorem coe_eraseIdx_add (l : List Pt) (i : ℕ) (hi : i < l.length) :
    ((l.eraseIdx i : List Pt) : Multiset Pt) + {l.getD i (0,0)} = (l : Multiset Pt) := by
  rw [List.getD_eq_getElem l (0,0) hi, List.eraseIdx_eq_take_drop_succ]
  conv_rhs => rw [← List.take_append_drop i l, List.drop_eq_getElem_cons hi]
  rw [← Multiset.coe_add, ← Multiset.coe_add, ← Multiset.cons_coe,
    ← Multiset.singleton_add]
  abel

/-- Setting index `i` swaps the old element for the new one, as multisets. -/
theorem coe_set_add (l : List Pt) (i : ℕ) (v : Pt) (hi : i < l.length) :
    ((l.set i v : List Pt) : Multiset Pt) + {l.getD i (0,0)} =
      (l : Multiset Pt) + {v} := by
  rw [List.getD_eq_getElem l (0,0) hi, List.set_eq_take_cons_drop v hi]
  conv_rhs => rw [← List.take_append_drop i l, List.drop_eq_getElem_cons hi]
  rw [← Multiset.coe_add, ← Multiset.coe_add, ← Multiset.cons_coe, ← Multiset.cons_coe,
    ← Multiset.singleton_add, ← Multiset.singleton_add]
  abel

/-- Inserting a block after position `i` only adds points, as multisets. -/
theorem coe_insert_block (l m : List Pt) (i : ℕ) :
    ((l.take i ++ m ++ l.drop i : List Pt) : Multiset Pt) =
      (l : Multiset Pt) + (m : Multiset Pt) := by
  rw [← Multiset.coe_add, ← Multiset.coe_add]
  conv_rhs => rw [← List.take_append_drop i l, ← Multiset.coe_add]
  abel

/-- Removing one occurrence of the removed boundary vertex from a sub-multiset
keeps it a sub-multiset of the shrunk boundary. -/
theorem erase_le_eraseIdx {d l : List Pt} (hd : (d : Multiset Pt) ≤ (l : Multiset Pt))
    (i : ℕ) (hi : i < l.length) :
    ((remove_first d (l.getD i (0,0)) : List Pt) : Multiset Pt) ≤
      ((l.eraseIdx i : List Pt) : Multiset Pt) := by
  have h1 : ((remove_first d (l.getD i (0,0)) : List Pt) : Multiset Pt) =
      Multiset.erase (d : Multiset Pt) (l.getD i (0,0)) :=
    coe_remove_first d _
  have h4 : (l : Multiset Pt) =
      (l.getD i (0,0)) ::ₘ ((l.eraseIdx i : List Pt) : Multiset Pt) := by
    rw [← coe_eraseIdx_add l i hi, add_comm, Multiset.singleton_add]
  have h2 : Multiset.erase (l : Multiset Pt) (l.getD i (0,0)) =
      ((l.eraseIdx i : List Pt) : Multiset Pt) := by
    rw [h4, Multiset.erase_cons_head]
  rw [h1, ← h2]
  exact Multiset.erase_le_erase _ hd

/-- Replacing the same value by the same new value on both sides preserves the
sub-multiset relation. -/
theorem set_le_set {d l : List Pt} (hd : (d : Multiset Pt) ≤ (l : Multiset Pt))
    {i j : ℕ} (hi : i < l.length) (hj : j < d.length) {old v : Pt}
    (hvi : l.getD i (0,0) = old) (hvj : d.getD j (0,0) = old) :
    ((d.set j v : List Pt) : Multiset Pt) ≤ ((l.set i v : List Pt) : Multiset Pt) := by
  have hl := coe_set_add l i v hi
  have hdj := coe_set_add d j v hj
  rw [hvi] at hl
  rw [hvj] at hdj
  have homem : old ∈ (d : Multiset Pt) := by
    rw [Multiset.mem_coe, ← hvj, List.getD_eq_getElem d (0,0) hj]
    exact List.getElem_mem hj
  have hlmem : old ∈ (l : Multiset Pt) := Multiset.mem_of_le hd homem
  have cancel : ∀ (x : List Pt) (m : Multiset Pt),
      ((x : Multiset Pt) + {old} = m + {v}) → (hom : old ∈ m) →
        (x : Multiset Pt) = Multiset.erase m old + {v} := by
    intro x m hx hom
    have hm : m = old ::ₘ Multiset.erase m old := (Multiset.cons_erase hom).symm
    have h2 : ({old} : Multiset Pt) + (x : Multiset Pt) =
        {old} + (Multiset.erase m old + {v}) := by
      rw [add_comm ({old} : Multiset Pt) (x : Multiset Pt), hx]
      conv_lhs => rw [hm, ← Multiset.singleton_add]
      abel
    exact add_left_cancel h2
  have e1 := cancel (d.set j v) (d : Multiset Pt) hdj homem
  have e2 := cancel (l.set i v) (l : Multiset Pt) hl hlmem
  rw [e1, e2]
  exact add_le_add_right (Multiset.erase_le_erase _ hd) _

/-! ### Dispatch-level lemmas -/

/-- A successful `split_offset` inserts a block after `idx`. -/
theorem op_split_offset_shape {points : List Pt} {idx : ℕ} {a : AttemptOracle}
    {bounds : Bounds} {np : List Pt}
    (h : op_split_offset points idx a bounds = .ok np) :
    ∃ m, np = points.take (idx+1) ++ m ++ points.drop (idx+1) := by
  unfold op_split_offset at h
  dsimp only at h
  split at h
  · injection h with h
    exact ⟨_, h.symm⟩
  · exact absurd h (by simp)

/-- A successful `sawtooth` inserts a block after `idx`. -/
theorem op_sawtooth_shape {points : List Pt} {idx : ℕ} {a : AttemptOracle}
    {bounds : Bounds} {np : List Pt}
    (h : op_sawtooth points idx a bounds = .ok np) :
    ∃ m, np = points.take (idx+1) ++ m ++ points.drop (idx+1) := by
  unfold op_sawtooth at h
  dsimp only at h
  split at h
  · injection h with h
    exact ⟨_, h.symm⟩
  · exact absurd h (by simp)

/-- A successful `squarewave` inserts a block after `idx`. -/
theorem op_squarewave_shape {points : List Pt} {idx : ℕ} {indep : Bool}
    {oppProb : ℚ} {a : AttemptOracle} {bounds : Bounds} {np : List Pt}
    (h : op_squarewave points idx indep oppProb a bounds = .ok np) :
    ∃ m, np = points.take (idx+1) ++ m ++ points.drop (idx+1) := by
  unfold op_squarewave at h
  dsimp only at h
  split at h
  · injection h with h
    exact ⟨_, h.symm⟩
  · exact absurd h (by simp)

/-- `remove_point` keeps the distortable multiset inside the boundary
multiset. -/
theorem op_remove_point_le {points : List Pt} {idx : ℕ} {distortable : List Pt}
    {pr : List Pt × List Pt}
    (hd : (distortable : Multiset Pt) ≤ (points : Multiset Pt))
    (h : op_remove_point points idx distortable = .ok pr) :
    (pr.2 : Multiset Pt) ≤ (pr.1 : Multiset Pt) := by
  unfold op_remove_point at h
  dsimp only at h
  split at h
  · exact absurd h (by simp)
  · injection h with h
    subst h
    by_cases hi : idx < points.length
    · exact erase_le_eraseIdx hd idx hi
    · rw [List.eraseIdx_eq_self.mpr (not_lt.mp hi)]
      calc ((remove_first distortable (points.getD idx (0,0)) : List Pt) : Multiset Pt)
          = Multiset.erase (distortable : Multiset Pt) _ := coe_remove_first _ _
        _ ≤ (distortable : Multiset Pt) := Multiset.erase_le _ _
        _ ≤ (points : Multiset Pt) := hd

/-- `distort_original` keeps the distortable multiset inside the boundary
multiset. -/
theorem op_distort_original_le {points : List Pt} {projectionMax : ℚ}
    {directionBias : String} {centroid : QPt} {bounds : Bounds}
    {distortable : List Pt} {a : AttemptOracle} {pr : List Pt × List Pt}
    (hd : (distortable : Multiset Pt) ≤ (points : Multiset Pt))
    (h : op_distort_original points projectionMax directionBias centroid bounds
          distortable a = .ok pr) :
    (pr.2 : Multiset Pt) ≤ (pr.1 : Multiset Pt) := by
  unfold op_distort_original at h
  dsimp only at h
  split at h
  · exact absurd h (by simp)
  next hlen =>
    split at h
    next hip =>
      have hdlen : a.choice % distortable.length < distortable.length :=
        Nat.mod_lt _ (Nat.pos_of_ne_zero hlen)
      have hmem : distortable.getD (a.choice % distortable.length) (0,0) ∈ distortable := by
        rw [List.getD_eq_getElem distortable (0,0) hdlen]
        exact List.getElem_mem hdlen
      have hjlen : index_of_pt distortable
          (distortable.getD (a.choice % distortable.length) (0,0)) < distortable.length :=
        index_of_pt_lt_length hmem
      split at h
      · injection h with h
        subst h
        exact hd
      · split at h
        · split at h
          · injection h with h
            subst h
            exact set_le_set hd hip hjlen
              (getD_index_of_pt (mem_of_index_of_pt_lt hip)) (getD_index_of_pt hmem)
          · exact absurd h (by simp)
        · split at h
          · injection h with h
            subst h
            exact set_le_set hd hip hjlen
              (getD_index_of_pt (mem_of_index_of_pt_lt hip)) (getD_index_of_pt hmem)
          · exact absurd h (by simp)
    · exact absurd h (by simp)

/-- Combined dispatch lemma: every point of a successful candidate boundary is
an old point or was bounds-checked. -/
theorem apply_operation_mem {operation : String} {points : List Pt} {idx : ℕ}
    {projectionMax : ℚ} {directionBias : String} {centroid : QPt} {bounds : Bounds}
    {distortable : List Pt} {indep : Bool} {oppProb : ℚ} {a : AttemptOracle}
    {np nd : List Pt}
    (h : apply_operation operation points idx projectionMax directionBias centroid
          bounds distortable indep oppProb a = .ok (np, nd)) :
    ∀ x ∈ np, x ∈ points ∨ is_within_bounds x bounds = true := by
  unfold apply_operation at h
  split_ifs at h
  · cases hop : op_split_offset points idx a bounds with
    | error e => rw [hop] at h; simp [Except.map] at h
    | ok l =>
        rw [hop] at h
        simp only [Except.map, Except.ok.injEq, Prod.mk.injEq] at h
        obtain ⟨rfl, rfl⟩ := h
        exact op_split_offset_mem hop
  · cases hop : op_sawtooth points idx a bounds with
    | error e => rw [hop] at h; simp [Except.map] at h
    | ok l =>
        rw [hop] at h
        simp only [Except.map, Except.ok.injEq, Prod.mk.injEq] at h
        obtain ⟨rfl, rfl⟩ := h
        exact op_sawtooth_mem hop
  · cases hop : op_squarewave points idx indep oppProb a bounds with
    | error e => rw [hop] at h; simp [Except.map] at h
    | ok l =>
        rw [hop] at h
        simp only [Except.map, Except.ok.injEq, Prod.mk.injEq] at h
        obtain ⟨rfl, rfl⟩ := h
        exact op_squarewave_mem hop
  · exact fun x hx => Or.inl (op_remove_point_mem h x hx)
  · exact op_distort_original_mem h

/-- Combined dispatch lemma: a successful candidate keeps the distortable
multiset inside the boundary multiset. -/
theorem apply_operation_le {operation : String} {points : List Pt} {idx : ℕ}
    {projectionMax : ℚ} {directionBias : String} {centroid : QPt} {bounds : Bounds}
    {distortable : List Pt} {indep : Bool} {oppProb : ℚ} {a : AttemptOracle}
    {np nd : List Pt}
    (hd : (distortable : Multiset Pt) ≤ (points : Multiset Pt))
    (h : apply_operation operation points idx projectionMax directionBias centroid
          bounds distortable indep oppProb a = .ok (np, nd)) :
    (nd : Multiset Pt) ≤ (np : Multiset Pt) := by
  unfold apply_operation at h
  split_ifs at h
  · cases hop : op_split_offset points idx a bounds with
    | error e => rw [hop] at h; simp [Except.map] at h
    | ok l =>
        rw [hop] at h
        simp only [Except.map, Except.ok.injEq, Prod.mk.injEq] at h
        obtain ⟨rfl, rfl⟩ := h
        obtain ⟨m, rfl⟩ := op_split_offset_shape hop
        rw [coe_insert_block]
        exact le_trans hd (Multiset.le_add_right _ _)
  · cases hop : op_sawtooth points idx a bounds with
    | error e => rw [hop] at h; simp [Except.map] at h
    | ok l =>
        rw [hop] at h
        simp only [Except.map, Except.ok.injEq, Prod.mk.injEq] at h
        obtain ⟨rfl, rfl⟩ := h
        obtain ⟨m, rfl⟩ := op_sawtooth_shape hop
        rw [coe_insert_block]
        exact le_trans hd (Multiset.le_add_right _ _)
  · cases hop : op_squarewave points idx indep oppProb a bounds with
    | error e => rw [hop] at h; simp [Except.map] at h
    | ok l =>
        rw [hop] at h
        simp only [Except.map, Except.ok.injEq, Prod.mk.injEq] at h
        obtain ⟨rfl, rfl⟩ := h
        obtain ⟨m, rfl⟩ := op_squarewave_shape hop
        rw [coe_insert_block]
        exact le_trans hd (Multiset.le_add_right _ _)
  · exact op_remove_point_le hd h
  · exact op_distort_original_le hd h

/-! ### Retry-loop lemmas -/

/-- An accepted candidate passed the validity check and came from a successful
application of the operation. -/
theorem run_attempts_some_valid {P : Params} {operation : String} {segIdx : ℕ}
    {st : DState} {att : ℕ → AttemptOracle} :
    ∀ {i fuel : ℕ} {stats : Stats} {np nd : List Pt},
      (run_attempts P operation segIdx st att i fuel stats).2 = some (np, nd) →
      is_valid_polygon np = true ∧
        ∃ j, apply_operation operation st.points segIdx P.projectionMax
          P.directionBias st.centroid P.bounds st.distortable
          P.independentDirections P.oppositeProb (att j) = .ok (np, nd) := by
  intro i fuel
  induction fuel generalizing i with
  | zero =>
      intro stats np nd h
      simp [run_attempts] at h
  | succ fuel ih =>
      intro stats np nd h
      cases happ : apply_operation operation st.points segIdx P.projectionMax
          P.directionBias st.centroid P.bounds st.distortable
          P.independentDirections P.oppositeProb (att i) with
      | error e =>
          simp only [run_attempts, happ] at h
          exact ih h
      | ok pr =>
          obtain ⟨np', nd'⟩ := pr
          simp only [run_attempts, happ] at h
          by_cases hv : is_valid_polygon np' = true
          · rw [if_pos hv] at h
            simp only [Option.some.injEq, Prod.mk.injEq] at h
            obtain ⟨rfl, rfl⟩ := h
            exact ⟨hv, i, happ⟩
          · rw [if_neg hv] at h
            exact ih h

/-- When every retry fails, the loop adds exactly `fuel` failed attempts to
the statistics and touches nothing else. -/
theorem run_attempts_none_stats {P : Params} {operation : String} {segIdx : ℕ}
    {st : DState} {att : ℕ → AttemptOracle} :
    ∀ {i fuel : ℕ} {stats : Stats},
      (run_attempts P operation segIdx st att i fuel stats).2 = none →
      (run_attempts P operation segIdx st att i fuel stats).1.succ = stats.succ ∧
      (run_attempts P operation segIdx st att i fuel stats).1.failed = stats.failed + fuel ∧
      (run_attempts P operation segIdx st att i fuel stats).1.opsUsed = stats.opsUsed := by
  intro i fuel
  induction fuel generalizing i with
  | zero =>
      intro stats _
      simp [run_attempts]
  | succ fuel ih =>
      intro stats h
      cases happ : apply_operation operation st.points segIdx P.projectionMax
          P.directionBias st.centroid P.bounds st.distortable
          P.independentDirections P.oppositeProb (att i) with
      | error e =>
          simp only [run_attempts, happ] at h ⊢
          obtain ⟨h1, h2, h3⟩ := ih h
          refine ⟨h1, ?_, h3⟩
          rw [h2]
          dsimp only
          omega
      | ok pr =>
          obtain ⟨np', nd'⟩ := pr
          simp only [run_attempts, happ] at h ⊢
          by_cases hv : is_valid_polygon np' = true
          · rw [if_pos hv] at h
            simp at h
          · rw [if_neg hv] at h ⊢
            obtain ⟨h1, h2, h3⟩ := ih h
            refine ⟨h1, ?_, h3⟩
            rw [h2]
            dsimp only
            omega

/-- The retry loop makes at most `fuel` attempts: the counters grow by at most
`fuel` in total, and the success counter by at most one. -/
theorem run_attempts_count {P : Params} {operation : String} {segIdx : ℕ}
    {st : DState} {att : ℕ → AttemptOracle} :
    ∀ {i fuel : ℕ} {stats : Stats},
      (run_attempts P operation segIdx st att i fuel stats).1.succ +
        (run_attempts P operation segIdx st att i fuel stats).1.failed ≤
        stats.succ + stats.failed + fuel ∧
      (run_attempts P operation segIdx st att i fuel stats).1.succ ≤ stats.succ + 1 := by
  intro i fuel
  induction fuel generalizing i with
  | zero => intro stats; simp [run_attempts]
  | succ fuel ih =>
      intro stats
      cases happ : apply_operation operation st.points segIdx P.projectionMax
          P.directionBias st.centroid P.bounds st.distortable
          P.independentDirections P.oppositeProb (att i) with
      | error e =>
          simp only [run_attempts, happ]
          obtain ⟨h1, h2⟩ := @ih (i+1) { stats with failed := stats.failed + 1 }
          constructor
          · exact le_trans h1 (by dsimp only; omega)
          · dsimp only at h2
            exact h2
      | ok pr =>
          obtain ⟨np', nd'⟩ := pr
          simp only [run_attempts, happ]
          by_cases hv : is_valid_polygon np' = true
          · rw [if_pos hv]
            constructor
            · simp
              omega
            · simp
          · rw [if_neg hv]
            obtain ⟨h1, h2⟩ := @ih (i+1) { stats with failed := stats.failed + 1 }
            constructor
            · exact le_trans h1 (by dsimp only; omega)
            · dsimp only at h2
              exact h2

/-- An accepted candidate keeps the distortable multiset inside the boundary
multiset. -/
theorem run_attempts_some_le {P : Params} {operation : String} {segIdx : ℕ}
    {st : DState} {att : ℕ → AttemptOracle} {i fuel : ℕ} {stats : Stats}
    {np nd : List Pt}
    (hd : (st.distortable : Multiset Pt) ≤ (st.points : Multiset Pt))
    (h : (run_attempts P operation segIdx st att i fuel stats).2 = some (np, nd)) :
    (nd : Multiset Pt) ≤ (np : Multiset Pt) := by
  obtain ⟨-, j, happ⟩ := run_attempts_some_valid h
  exact apply_operation_le hd happ

/-- Every point of an accepted candidate is an old boundary point or passed
the bounds check. -/
theorem run_attempts_some_mem {P : Params} {operation : String} {segIdx : ℕ}
    {st : DState} {att : ℕ → AttemptOracle} {i fuel : ℕ} {stats : Stats}
    {np nd : List Pt}
    (h : (run_attempts P operation segIdx st att i fuel stats).2 = some (np, nd)) :
    ∀ x ∈ np, x ∈ st.points ∨ is_within_bounds x P.bounds = true := by
  obtain ⟨-, j, happ⟩ := run_attempts_some_valid h
  exact apply_operation_mem happ

/-! ### Iteration-level lemmas -/

/-- Anatomy of a successful iteration: the new stats are the attempt loop's
stats; every snapshot is an old one or carries the new boundary; and the
state is either unchanged (exhaustion) or the accepted candidate with its
recomputed centroid. -/
theorem run_iteration_ok {sq : ℚ → ℚ} {P : Params} {st : DState} {o : IterOracle}
    {it : ℕ} {st' : DState} (h : run_iteration sq P st o it = .ok st') :
    st'.stats = (iter_attempts sq P st o).1 ∧
    (∀ s ∈ st'.snapshots, s ∈ st.snapshots ∨ s.points = st'.points) ∧
    (((iter_attempts sq P st o).2 = none ∧ st'.points = st.points ∧
        st'.distortable = st.distortable ∧ st'.centroid = st.centroid) ∨
      (∃ np nd, (iter_attempts sq P st o).2 = some (np, nd) ∧
        st'.points = np ∧ st'.distortable = nd ∧
        st'.centroid = compute_centroid np)) := by
  unfold run_iteration at h
  split at h
  · exact absurd h (by simp)
  rcases hE : iter_attempts sq P st o with ⟨stats', accepted⟩
  rw [hE] at h
  cases accepted with
  | none =>
      dsimp only at h
      split at h
      · injection h with h
        subst h
        refine ⟨rfl, ?_, Or.inl ⟨rfl, rfl, rfl, rfl⟩⟩
        intro s hs
        simp only [List.mem_append, List.mem_singleton] at hs
        rcases hs with hs | rfl
        · exact Or.inl hs
        · exact Or.inr rfl
      · injection h with h
        subst h
        exact ⟨rfl, fun s hs => Or.inl hs, Or.inl ⟨rfl, rfl, rfl, rfl⟩⟩
  | some pr =>
      obtain ⟨np, nd⟩ := pr
      dsimp only at h
      split at h
      · injection h with h
        subst h
        refine ⟨rfl, ?_, Or.inr ⟨np, nd, rfl, rfl, rfl, rfl⟩⟩
        intro s hs
        simp only [List.mem_append, List.mem_singleton] at hs
        rcases hs with hs | rfl
        · exact Or.inl hs
        · exact Or.inr rfl
      · injection h with h
        subst h
        exact ⟨rfl, fun s hs => Or.inl hs, Or.inr ⟨np, nd, rfl, rfl, rfl, rfl⟩⟩

/-- After a successful iteration the boundary is either unchanged or a
validated candidate. -/
theorem run_iteration_valid {sq : ℚ → ℚ} {P : Params} {st : DState} {o : IterOracle}
    {it : ℕ} {st' : DState} (h : run_iteration sq P st o it = .ok st') :
    st'.points = st.points ∨ is_valid_polygon st'.points = true := by
  obtain ⟨-, -, hcases⟩ := run_iteration_ok h
  rcases hcases with ⟨-, hp, -, -⟩ | ⟨np, nd, hsome, hp, -, -⟩
  · exact Or.inl hp
  · refine Or.inr ?_
    rw [hp]
    unfold iter_attempts at hsome
    exact (run_attempts_some_valid hsome).1

/-- A successful iteration preserves the distortable-set inclusion. -/
theorem run_iteration_le {sq : ℚ → ℚ} {P : Params} {st : DState} {o : IterOracle}
    {it : ℕ} {st' : DState}
    (hd : (st.distortable : Multiset Pt) ≤ (st.points : Multiset Pt))
    (h : run_iteration sq P st o it = .ok st') :
    (st'.distortable : Multiset Pt) ≤ (st'.points : Multiset Pt) := by
  obtain ⟨-, -, hcases⟩ := run_iteration_ok h
  rcases hcases with ⟨-, hp, hdd, -⟩ | ⟨np, nd, hsome, hp, hdd, -⟩
  · rw [hp, hdd]
    exact hd
  · rw [hp, hdd]
    unfold iter_attempts at hsome
    exact run_attempts_some_le hd hsome

/-- A successful iteration keeps every boundary point and every snapshot point
inside the bounds rectangle. -/
theorem run_iteration_bounds {sq : ℚ → ℚ} {P : Params} {st : DState} {o : IterOracle}
    {it : ℕ} {st' : DState}
    (hb : ∀ x ∈ st.points, is_within_bounds x P.bounds = true)
    (hs : ∀ s ∈ st.snapshots, ∀ x ∈ s.points, is_within_bounds x P.bounds = true)
    (h : run_iteration sq P st o it = .ok st') :
    (∀ x ∈ st'.points, is_within_bounds x P.bounds = true) ∧
    (∀ s ∈ st'.snapshots, ∀ x ∈ s.points, is_within_bounds x P.bounds = true) := by
  obtain ⟨-, hsnap, hcases⟩ := run_iteration_ok h
  have hb' : ∀ x ∈ st'.points, is_within_bounds x P.bounds = true := by
    rcases hcases with ⟨-, hp, -, -⟩ | ⟨np, nd, hsome, hp, -, -⟩
    · rw [hp]
      exact hb
    · rw [hp]
      unfold iter_attempts at hsome
      intro x hx
      rcases run_attempts_some_mem hsome x hx with hold | hnew
      · exact hb x hold
      · exact hnew
  refine ⟨hb', ?_⟩
  intro s hsmem x hx
  rcases hsnap s hsmem with hold | hpts
  · exact hs s hold x hx
  · exact hb' x (hpts ▸ hx)

/-- A successful iteration adds at most `max_retries` to the attempt counters
and at most one success. -/
theorem run_iteration_stats {sq : ℚ → ℚ} {P : Params} {st : DState} {o : IterOracle}
    {it : ℕ} {st' : DState} (h : run_iteration sq P st o it = .ok st') :
    st'.stats.succ + st'.stats.failed ≤
      st.stats.succ + st.stats.failed + P.maxRetries ∧
    st'.stats.succ ≤ st.stats.succ + 1 := by
  obtain ⟨hstats, -, -⟩ := run_iteration_ok h
  rw [hstats]
  exact run_attempts_count

/-- Per-iteration exhaustion (claim C5's situation): when the weighted list is
non-empty and every retry failed, the iteration still returns successfully,
the boundary, distortable set and centroid are unchanged, the failure counter
grows by exactly `max_retries`, and nothing else in the statistics moves. -/
theorem run_iteration_exhausted {sq : ℚ → ℚ} {P : Params} {st : DState}
    {o : IterOracle} {it : ℕ}
    (hel : (eligible_ops P).length ≠ 0)
    (hnone : (iter_attempts sq P st o).2 = none) :
    ∃ st', run_iteration sq P st o it = .ok st' ∧
      st'.points = st.points ∧ st'.distortable = st.distortable ∧
      st'.centroid = st.centroid ∧
      st'.stats.succ = st.stats.succ ∧
      st'.stats.failed = st.stats.failed + P.maxRetries ∧
      st'.stats.opsUsed = st.stats.opsUsed := by
  have hstats := run_attempts_none_stats (by unfold iter_attempts at hnone; exact hnone)
  unfold run_iteration
  rw [if_neg hel]
  rcases hE : iter_attempts sq P st o with ⟨stats', accepted⟩
  have haccept : accepted = none := by
    have := hnone
    rw [hE] at this
    exact this
  subst haccept
  have hstats' : stats'.succ = st.stats.succ ∧
      stats'.failed = st.stats.failed + P.maxRetries ∧
      stats'.opsUsed = st.stats.opsUsed := by
    have h1 := hstats.1
    have h2 := hstats.2.1
    have h3 := hstats.2.2
    unfold iter_attempts at hE
    rw [hE] at h1 h2 h3
    exact ⟨h1, h2, h3⟩
  dsimp only
  split
  · exact ⟨_, rfl, rfl, rfl, rfl, hstats'.1, hstats'.2.1, hstats'.2.2⟩
  · exact ⟨_, rfl, rfl, rfl, rfl, hstats'.1, hstats'.2.1, hstats'.2.2⟩

/-- With no positive-weight operation, an iteration raises the `ValueError`
before any mutation attempt. -/
theorem run_iteration_no_ops {sq : ℚ → ℚ} {P : Params} {st : DState}
    {o : IterOracle} {it : ℕ} (hel : (eligible_ops P).length = 0) :
    run_iteration sq P st o it =
      .error "No operations with positive weights available" := by
  unfold run_iteration
  rw [if_pos hel]

/-! ### Loop-level and initial-state lemmas -/

/-- Along a completed loop the boundary is unchanged-from-entry or validated,
and validity, once true, persists. -/
theorem run_loop_valid {sq : ℚ → ℚ} {P : Params} {oracles : ℕ → IterOracle} :
    ∀ {n i : ℕ} {st st' : DState},
      run_loop sq P oracles i n st = .ok st' →
      (st'.points = st.points ∨ is_valid_polygon st'.points = true) ∧
      (is_valid_polygon st.points = true → is_valid_polygon st'.points = true) := by
  intro n
  induction n with
  | zero =>
      intro i st st' h
      injection h with h
      subst h
      exact ⟨Or.inl rfl, id⟩
  | succ n ih =>
      intro i st st' h
      rw [run_loop] at h
      cases hit : run_iteration sq P st (oracles i) i with
      | error e => rw [hit] at h; exact absurd h (by simp)
      | ok st1 =>
          rw [hit] at h
          obtain ⟨hv1, hv2⟩ := ih h
          have hstep := run_iteration_valid hit
          constructor
          · rcases hv1 with hp | hval
            · rw [hp]
              exact hstep
            · exact Or.inr hval
          · intro hinit
            refine hv2 ?_
            rcases hstep with hp | hval
            · rwa [hp]
            · exact hval

/-- A completed loop preserves the distortable-set inclusion. -/
theorem run_loop_le {sq : ℚ → ℚ} {P : Params} {oracles : ℕ → IterOracle} :
    ∀ {n i : ℕ} {st st' : DState},
      (st.distortable : Multiset Pt) ≤ (st.points : Multiset Pt) →
      run_loop sq P oracles i n st = .ok st' →
      (st'.distortable : Multiset Pt) ≤ (st'.points : Multiset Pt) := by
  intro n
  induction n with
  | zero =>
      intro i st st' hd h
      injection h with h
      subst h
      exact hd
  | succ n ih =>
      intro i st st' hd h
      rw [run_loop] at h
      cases hit : run_iteration sq P st (oracles i) i with
      | error e => rw [hit] at h; exact absurd h (by simp)
      | ok st1 =>
          rw [hit] at h
          exact ih (run_iteration_le hd hit) h

/-- A completed loop keeps all boundary and snapshot points in bounds. -/
theorem run_loop_bounds {sq : ℚ → ℚ} {P : Params} {oracles : ℕ → IterOracle} :
    ∀ {n i : ℕ} {st st' : DState},
      (∀ x ∈ st.points, is_within_bounds x P.bounds = true) →
      (∀ s ∈ st.snapshots, ∀ x ∈ s.points, is_within_bounds x P.bounds = true) →
      run_loop sq P oracles i n st = .ok st' →
      (∀ x ∈ st'.points, is_within_bounds x P.bounds = true) ∧
      (∀ s ∈ st'.snapshots, ∀ x ∈ s.points, is_within_bounds x P.bounds = true) := by
  intro n
  induction n with
  | zero =>
      intro i st st' hb hs h
      injection h with h
      subst h
      exact ⟨hb, hs⟩
  | succ n ih =>
      intro i st st' hb hs h
      rw [run_loop] at h
      cases hit : run_iteration sq P st (oracles i) i with
      | error e => rw [hit] at h; exact absurd h (by simp)
      | ok st1 =>
          rw [hit] at h
          obtain ⟨hb1, hs1⟩ := run_iteration_bounds hb hs hit
          exact ih hb1 hs1 h

/-- A completed loop of `n` iterations adds at most `n · max_retries` counted
attempts and at most `n` successes. -/
theorem run_loop_stats {sq : ℚ → ℚ} {P : Params} {oracles : ℕ → IterOracle} :
    ∀ {n i : ℕ} {st st' : DState},
      run_loop sq P oracles i n st = .ok st' →
      st'.stats.succ + st'.stats.failed ≤
        st.stats.succ + st.stats.failed + n * P.maxRetries ∧
      st'.stats.succ ≤ st.stats.succ + n := by
  intro n
  induction n with
  | zero =>
      intro i st st' h
      injection h with h
      subst h
      omega
  | succ n ih =>
      intro i st st' h
      rw [run_loop] at h
      cases hit : run_iteration sq P st (oracles i) i with
      | error e => rw [hit] at h; exact absurd h (by simp)
      | ok st1 =>
          rw [hit] at h
          obtain ⟨ha1, ha2⟩ := ih h
          obtain ⟨hb1, hb2⟩ := run_iteration_stats hit
          have hr : (n + 1) * P.maxRetries = n * P.maxRetries + P.maxRetries := by ring
          omega

/-- With every weight non-positive, any loop of at least one iteration raises
the driver's `ValueError` (and therefore produces no polygon). -/
theorem run_loop_all_zero {sq : ℚ → ℚ} {P : Params} {oracles : ℕ → IterOracle}
    {n i : ℕ} {st : DState} (hel : (eligible_ops P).length = 0) :
    run_loop sq P oracles i (n + 1) st =
      .error "No operations with positive weights available" := by
  rw [run_loop, run_iteration_no_ops hel]

/-- The initial boundary is the rounded, angle-sorted draw list. -/
theorem initial_state_points {P : Params} {connected : List QPt} :
    (initial_state P connected).points = connected.map round_point := by
  unfold initial_state
  dsimp only
  split
  · rfl
  · rfl

/-- The initial distortable list is (an independent copy of) the boundary. -/
theorem initial_state_distortable {P : Params} {connected : List QPt} :
    (initial_state P connected).distortable = connected.map round_point := by
  unfold initial_state
  dsimp only
  split
  · rfl
  · rfl

/-- The statistics start at zero. -/
theorem initial_state_stats {P : Params} {connected : List QPt} :
    (initial_state P connected).stats =
      { succ := 0, failed := 0, opsUsed := P.operations.map fun ow => (ow.1, 0) } := by
  unfold initial_state
  dsimp only
  split
  · rfl
  · rfl

/-- Every initial snapshot (there is at most one, iteration 0) carries the
initial boundary. -/
theorem initial_state_snapshots {P : Params} {connected : List QPt} :
    ∀ s ∈ (initial_state P connected).snapshots,
      s.points = connected.map round_point := by
  unfold initial_state
  dsimp only
  split
  · intro s hs
    simp only [List.mem_singleton] at hs
    subst hs
    rfl
  · intro s hs
    simp at hs

/-! ### Segment-selection lemmas -/

/-- The cumulative walk only ever returns a listed index. -/
theorem cumulative_walk_mem {r : ℚ} :
    ∀ {pairs : List (ℕ × ℚ)} {cum : ℚ} {i : ℕ},
      cumulative_walk r cum pairs = some i → i ∈ pairs.map Prod.fst := by
  intro pairs
  induction pairs with
  | nil =>
      intro cum i h
      simp [cumulative_walk] at h
  | cons il rest ih =>
      intro cum i h
      rw [cumulative_walk] at h
      split at h
      · injection h with h
        subst h
        exact List.mem_cons_self _ _
      · exact List.mem_cons_of_mem _ (ih h)

/-- A non-empty list's `getLastD` is a member. -/
theorem getLastD_mem_of_ne_nil : ∀ {l : List ℕ}, l ≠ [] → ∀ d : ℕ, l.getLastD d ∈ l := by
  intro l
  induction l with
  | nil =>
      intro h d
      exact absurd rfl h
  | cons a as ih =>
      intro _ d
      rw [List.getLastD_cons]
      by_cases hnil : as = []
      · subst hnil
        simp [List.getLastD]
      · exact List.mem_cons_of_mem _ (ih hnil a)

/-- Members of the (possibly fallen-back) index list are genuine edge
indices. -/
theorem mem_fallback_lt {sq : ℚ → ℚ} {ps : List Pt} {minSeg : ℤ} {x : ℕ}
    (hx : x ∈ fallback_indices sq ps minSeg) : x < ps.length := by
  unfold fallback_indices at hx
  split at hx
  · exact List.mem_range.mp hx
  · exact List.mem_range.mp (List.mem_of_mem_filter hx)

/-- With a non-empty eligible list, no fallback happens. -/
theorem fallback_eq_of_ne_nil {sq : ℚ → ℚ} {ps : List Pt} {minSeg : ℤ}
    (hne : eligible_indices sq ps minSeg ≠ []) :
    fallback_indices sq ps minSeg = eligible_indices sq ps minSeg := by
  unfold fallback_indices
  rw [if_neg hne]

/-- The fallback list is non-empty whenever the boundary is. -/
theorem fallback_ne_nil {sq : ℚ → ℚ} {ps : List Pt} {minSeg : ℤ}
    (hps : ps ≠ []) : fallback_indices sq ps minSeg ≠ [] := by
  unfold fallback_indices
  split
  · intro hc
    rw [List.range_eq_nil] at hc
    exact hps (List.length_eq_zero.mp hc)
  next hne => exact hne

/-- Each value the walk weighs is non-negative when `sq` is. -/
theorem seg_lengths_getD_nonneg {sq : ℚ → ℚ} {ps : List Pt}
    (hsq : ∀ q, 0 ≤ sq q) (i : ℕ) : 0 ≤ (seg_lengths sq ps).getD i 0 := by
  by_cases hi : i < (seg_lengths sq ps).length
  · rw [List.getD_eq_getElem _ 0 hi]
    unfold seg_lengths at hi ⊢
    rw [List.getElem_map]
    exact hsq _
  · rw [List.getD_eq_default _ 0 (not_lt.mp hi)]

/-- A list of non-negative rationals summing to zero is all zero. -/
theorem list_sum_zero_of_nonneg : ∀ {l : List ℚ}, (∀ x ∈ l, 0 ≤ x) → l.sum = 0 →
    ∀ x ∈ l, x = 0 := by
  intro l
  induction l with
  | nil => simp
  | cons a as ih =>
      intro hnn hs x hx
      rw [List.sum_cons] at hs
      have ha : 0 ≤ a := hnn a (List.mem_cons_self _ _)
      have has : 0 ≤ as.sum :=
        List.sum_nonneg fun y hy => hnn y (List.mem_cons_of_mem _ hy)
      have ha0 : a = 0 := by linarith
      have hsum0 : as.sum = 0 := by linarith
      rcases List.mem_cons.mp hx with rfl | hx
      · exact ha0
      · exact ih (fun y hy => hnn y (List.mem_cons_of_mem _ hy)) hsum0 x hx

/-- C9(a) plumbing: with at least one eligible edge (and a valid uniform
index), the selection lands on an eligible edge. -/
theorem select_segment_in_eligible {sq : ℚ → ℚ} {ps : List Pt} {minSeg : ℤ}
    {r : ℚ} {k : ℕ} (hsq : ∀ q, 0 ≤ sq q)
    (hne : eligible_indices sq ps minSeg ≠ []) (hk : k < ps.length) :
    select_segment sq ps minSeg r k ∈ eligible_indices sq ps minSeg := by
  unfold select_segment
  dsimp only
  rw [fallback_eq_of_ne_nil hne]
  split
  next htot =>
    obtain ⟨i0, hi0⟩ := List.exists_mem_of_ne_nil _ hne
    have hall := list_sum_zero_of_nonneg
      (l := (eligible_indices sq ps minSeg).map fun i => (seg_lengths sq ps).getD i 0)
      (by
        intro x hx
        obtain ⟨i, -, rfl⟩ := List.mem_map.mp hx
        exact seg_lengths_getD_nonneg hsq i) htot
    have hlen0 : (seg_lengths sq ps).getD i0 0 = 0 :=
      hall _ (List.mem_map.mpr ⟨i0, hi0, rfl⟩)
    have hmin : (minSeg : ℚ) ≤ 0 := by
      have := List.mem_filter.mp hi0
      have hcond := this.2
      rw [decide_eq_true_eq] at hcond
      rwa [hlen0] at hcond
    refine List.mem_filter.mpr ⟨List.mem_range.mpr hk, ?_⟩
    rw [decide_eq_true_eq]
    exact le_trans hmin (seg_lengths_getD_nonneg hsq k)
  next htot =>
    split
    next i hw =>
      have hmem := cumulative_walk_mem hw
      rwa [List.map_fst_zip _ _ (by rw [List.length_map])] at hmem
    next hw =>
      exact getLastD_mem_of_ne_nil hne _

/-- C9(b) plumbing: the selection is always a genuine edge index — in
particular the empty-eligible fallback raises nothing. -/
theorem select_segment_lt {sq : ℚ → ℚ} {ps : List Pt} {minSeg : ℤ} {r : ℚ}
    {k : ℕ} (hk : k < ps.length) :
    select_segment sq ps minSeg r k < ps.length := by
  have hps : ps ≠ [] := by
    intro hc
    rw [hc] at hk
    simp at hk
  unfold select_segment
  dsimp only
  split
  · exact hk
  · split
    next i hw =>
      have hmem := cumulative_walk_mem hw
      rw [List.map_fst_zip _ _ (by rw [List.length_map])] at hmem
      exact mem_fallback_lt hmem
    next hw =>
      exact mem_fallback_lt (getLastD_mem_of_ne_nil (fallback_ne_nil hps) _)

/-- C9(c) plumbing: all edges of zero length (and `sqrt 0 = 0`) send the
selection to the uniform `randint` draw. -/
theorem select_segment_degenerate {sq : ℚ → ℚ} {ps : List Pt} {minSeg : ℤ}
    {r : ℚ} {k : ℕ}
    (hz : ∀ i, i < ps.length →
      dist_sq (ps.getD i (0,0)) (ps.getD ((i+1) % ps.length) (0,0)) = 0)
    (hsq0 : sq 0 = 0) :
    select_segment sq ps minSeg r k = k := by
  have hlen0 : ∀ i, (seg_lengths sq ps).getD i 0 = 0 := by
    intro i
    by_cases hi : i < (seg_lengths sq ps).length
    · rw [List.getD_eq_getElem _ 0 hi]
      unfold seg_lengths at hi ⊢
      rw [List.getElem_map]
      have hilt : i < ps.length := by
        simpa using hi
      rw [List.getElem_range, hz i hilt, hsq0]
    · exact List.getD_eq_default _ 0 (not_lt.mp hi)
  unfold select_segment
  dsimp only
  rw [if_pos]
  exact List.sum_eq_zero (by
    intro x hx
    obtain ⟨i, -, rfl⟩ := List.mem_map.mp hx
    exact hlen0 i)

/-! ### Validator bridge and output unpacking -/

/-- `_is_valid_polygon` returns `True` exactly when the boundary has at least
three points and no two non-adjacent edges (pairs `(i, j)` with `j ≥ i+2`,
the wrap-around pair `(0, n-1)` excepted — precisely the pairs sharing no
vertex) intersect. -/
theorem is_valid_polygon_iff (ps : List Pt) :
    is_valid_polygon ps = true ↔
      3 ≤ ps.length ∧
        ∀ i j, i < ps.length → j < ps.length → i + 2 ≤ j →
          ¬(i = 0 ∧ j = ps.length - 1) →
          segments_intersect (ps.getD i (0,0)) (ps.getD ((i+1) % ps.length) (0,0))
            (ps.getD j (0,0)) (ps.getD ((j+1) % ps.length) (0,0)) = false := by
  unfold is_valid_polygon
  dsimp only
  split
  next hn =>
    constructor
    · intro hc
      simp at hc
    · rintro ⟨h3, -⟩
      exact absurd h3 (by omega)
  next hn =>
    constructor
    · intro hall
      refine ⟨by omega, ?_⟩
      intro i j hi hj hij hskip
      rw [List.all_eq_true] at hall
      have h1 := hall i (List.mem_range.mpr hi)
      rw [List.all_eq_true] at h1
      have h2 := h1 j (List.mem_filter.mpr ⟨List.mem_range.mpr hj, by simpa using hij⟩)
      rw [if_neg] at h2
      · rw [Bool.not_eq_true'] at h2
        exact h2
      · simp only [Bool.and_eq_true, beq_iff_eq]
        intro hc
        exact hskip ⟨hc.1, hc.2⟩
    · rintro ⟨-, hno⟩
      rw [List.all_eq_true]
      intro i hi
      rw [List.all_eq_true]
      intro j hj
      obtain ⟨hjr, hijb⟩ := List.mem_filter.mp hj
      have hij : i + 2 ≤ j := by simpa using hijb
      by_cases hs : (i == 0 && j == ps.length - 1) = true
      · rw [if_pos hs]
      · rw [if_neg hs]
        have hskip : ¬(i = 0 ∧ j = ps.length - 1) := by
          simp only [Bool.and_eq_true, beq_iff_eq] at hs
          intro hc
          exact hs ⟨hc.1, hc.2⟩
        have hff := hno i j (List.mem_range.mp hi) (List.mem_range.mp hjr) hij hskip
        rw [Bool.not_eq_true', hff]

/-- Both connection methods produce the angle-sorted order (`convex_hull` is
aliased in the source). -/
theorem connect_vertices_ok {ps : List QPt} {method : String} {l : List QPt}
    (h : connect_vertices ps method = .ok l) : l = connect_angle_sort ps := by
  unfold connect_vertices at h
  split_ifs at h
  · injection h with h
    exact h.symm
  · injection h with h
    exact h.symm

/-- Unpack a successful `dynamic_polygon` call into its completed loop. -/
theorem dynamic_polygon_ok {sq : ℚ → ℚ} {P : Params} {draws : List QPt}
    {oracles : ℕ → IterOracle} {out : Output}
    (h : dynamic_polygon sq P draws oracles = .ok out) :
    ∃ st, run_loop sq P oracles 0 P.iterations
        (initial_state P (connect_angle_sort draws)) = .ok st ∧
      out.points = st.points ∧ out.stats = st.stats ∧
      out.snapshots = st.snapshots ∧
      (∀ snap, out.finalSnapshot = some snap → snap.points = st.points) ∧
      out.procIsFinal = P.saveIterations := by
  unfold dynamic_polygon at h
  cases hcv : connect_vertices draws P.connect with
  | error e => rw [hcv] at h; exact absurd h (by simp)
  | ok connected =>
      rw [hcv] at h
      dsimp only at h
      obtain rfl := connect_vertices_ok hcv
      cases hrl : run_loop sq P oracles 0 P.iterations
          (initial_state P (connect_angle_sort draws)) with
      | error e => rw [hrl] at h; exact absurd h (by simp)
      | ok st =>
          rw [hrl] at h
          dsimp only at h
          injection h with h
          subst h
          refine ⟨st, rfl, rfl, rfl, rfl, ?_, rfl⟩
          intro snap hsnap
          dsimp only at hsnap
          split at hsnap
          · injection hsnap with hsnap
            rw [← hsnap]
            exact rfl
          · exact absurd hsnap (by simp)

/-! ### Further helper lemmas for the claims -/

/-- Initial construction from draws inside the bounds rectangle yields only
in-bounds points (rounding included), in the boundary and in the iteration-0
snapshot alike. -/
theorem initial_state_in_bounds {P : Params} {draws : List QPt}
    (hd : ∀ q ∈ draws, (P.bounds.x1 : ℚ) ≤ q.1 ∧ q.1 ≤ (P.bounds.x2 : ℚ) ∧
          (P.bounds.y1 : ℚ) ≤ q.2 ∧ q.2 ≤ (P.bounds.y2 : ℚ)) :
    (∀ x ∈ (initial_state P (connect_angle_sort draws)).points,
        is_within_bounds x P.bounds = true) ∧
    (∀ s ∈ (initial_state P (connect_angle_sort draws)).snapshots,
        ∀ x ∈ s.points, is_within_bounds x P.bounds = true) := by
  have hpts : ∀ x ∈ (connect_angle_sort draws).map round_point,
      is_within_bounds x P.bounds = true := by
    intro x hx
    obtain ⟨q, hq, rfl⟩ := List.mem_map.mp hx
    obtain ⟨h1, h2, h3, h4⟩ := hd q (mem_connect_angle_sort.mp hq)
    exact round_point_in_bounds h1 h2 h3 h4
  constructor
  · rw [initial_state_points]
    exact hpts
  · intro snap hs x hx
    have hsp := initial_state_snapshots snap hs
    rw [hsp] at hx
    exact hpts x hx

/-- `distort_original` on a distortable point that coincides exactly with the
centroid returns copies of its inputs unchanged (the `distance == 0` early
return). -/
theorem op_distort_centroid_fixed {points : List Pt} {projectionMax : ℚ}
    {directionBias : String} {centroid : QPt} {bounds : Bounds}
    {distortable : List Pt} {a : AttemptOracle}
    (hne : ¬distortable.length = 0)
    (hold : distortable.getD (a.choice % distortable.length) (0,0) ∈ points)
    (hcx : ((distortable.getD (a.choice % distortable.length) (0,0)).1 : ℚ) = centroid.1)
    (hcy : ((distortable.getD (a.choice % distortable.length) (0,0)).2 : ℚ) = centroid.2) :
    op_distort_original points projectionMax directionBias centroid bounds
      distortable a = .ok (points, distortable) := by
  unfold op_distort_original
  dsimp only
  rw [if_neg hne, dif_pos (index_of_pt_lt_length hold),
    if_pos ⟨sub_eq_zero.mpr hcx, sub_eq_zero.mpr hcy⟩]

/-- A first attempt that produces a valid candidate is accepted immediately:
one success, the operation's usage counter bumped, nothing else counted. -/
theorem run_attempts_first_success {P : Params} {operation : String} {segIdx : ℕ}
    {st : DState} {att : ℕ → AttemptOracle} {i fuel : ℕ} {stats : Stats}
    {np nd : List Pt}
    (happ : apply_operation operation st.points segIdx P.projectionMax
      P.directionBias st.centroid P.bounds st.distortable
      P.independentDirections P.oppositeProb (att i) = .ok (np, nd))
    (hvalid : is_valid_polygon np = true) :
    run_attempts P operation segIdx st att i (fuel + 1) stats =
      ({ stats with succ := stats.succ + 1,
                    opsUsed := bump_op stats.opsUsed operation },
       some (np, nd)) := by
  simp only [run_attempts, happ]
  rw [if_pos hvalid]

/-- Shape of `remove_point`'s successful result. -/
theorem op_remove_point_eq {points : List Pt} {idx : ℕ} {distortable : List Pt}
    (hlen : 3 < points.length) :
    op_remove_point points idx distortable =
      .ok (points.eraseIdx idx,
           remove_first distortable (points.getD idx (0,0))) := by
  unfold op_remove_point
  rw [if_neg (by omega)]

/-- `remove_point` on a boundary of three (or fewer) points raises. -/
theorem op_remove_point_err {points : List Pt} {idx : ℕ} {distortable : List Pt}
    (hlen : points.length ≤ 3) :
    op_remove_point points idx distortable =
      .error "Cannot remove point - polygon must have at least 3 vertices" := by
  unfold op_remove_point
  rw [if_pos hlen]

/-- Shape of `distort_original`'s successful result: either the centroid
early-return (everything unchanged) or an old distortable point replaced by
one new coordinate at its first occurrence in boundary and distortable list
alike. -/
theorem op_distort_original_shape {points : List Pt} {projectionMax : ℚ}
    {directionBias : String} {centroid : QPt} {bounds : Bounds}
    {distortable : List Pt} {a : AttemptOracle} {np nd : List Pt}
    (h : op_distort_original points projectionMax directionBias centroid bounds
          distortable a = .ok (np, nd)) :
    (np = points ∧ nd = distortable) ∨
      (∃ newCoord,
        np = points.set (index_of_pt points
              (distortable.getD (a.choice % distortable.length) (0,0))) newCoord ∧
        nd = distortable.set (index_of_pt distortable
              (distortable.getD (a.choice % distortable.length) (0,0))) newCoord ∧
        is_within_bounds newCoord bounds = true) := by
  unfold op_distort_original at h
  dsimp only at h
  split at h
  · exact absurd h (by simp)
  split at h
  · split at h
    · injection h with h
      injection h with h1 h2
      exact Or.inl ⟨h1.symm, h2.symm⟩
    · split at h
      · split at h
        next hb =>
          injection h with h
          injection h with h1 h2
          exact Or.inr ⟨_, h1.symm, h2.symm, hb⟩
        · exact absurd h (by simp)
      · split at h
        next hb =>
          injection h with h
          injection h with h1 h2
          exact Or.inr ⟨_, h1.symm, h2.symm, hb⟩
        · exact absurd h (by simp)
  · exact absurd h (by simp)

/-! ### Concrete runs used by the witnesses and counterexamples

`sq_ex` agrees with the real square root on every value these runs feed it
(`sqrt 100 = 10`, and `0` elsewhere is never reached with a relevant value);
all oracle values below are values the corresponding `random.*` calls can
return. -/

def sq_ex : ℚ → ℚ := fun q => if q = 100 then 10 else 0

def bounds_ex : Bounds := { x1 := 0, y1 := 0, x2 := 10, y2 := 10 }

/-- Four uniform draws, already in angle-sorted order around their centroid. -/
def draws_square : List QPt := [(0,0), (10,0), (10,10), (0,10)]

/-- Two uniform draws (a `vertices=2` call), angle-sorted order. -/
def draws_two : List QPt := [(0,0), (10,10)]

def oracle_ex : ℕ → IterOracle := fun _ => { segR := 5, segK := 0, opIdx := 0 }

/-- `mergeSort` does not reduce definitionally, so concrete sorts are
evaluated through this lemma: a list already in angle order is fixed. -/
theorem connect_angle_sort_of_sorted {ps : List QPt}
    (h : List.Pairwise (fun p q => (!(angle_lt (q_centroid ps) q p)) = true) ps) :
    connect_angle_sort ps = ps := by
  unfold connect_angle_sort
  exact List.mergeSort_of_sorted h

/-- Evaluation helper: with `angle_sort` connection and already-sorted draws,
`dynamic_polygon` is the loop over `initial_state`. -/
theorem dynamic_polygon_sorted_eq {sq : ℚ → ℚ} {P : Params} {draws : List QPt}
    {oracles : ℕ → IterOracle}
    (hconn : P.connect = "angle_sort")
    (hsorted : connect_angle_sort draws = draws) :
    dynamic_polygon sq P draws oracles =
      match run_loop sq P oracles 0 P.iterations (initial_state P draws) with
      | .error e => .error e
      | .ok st =>
          .ok { points := st.points, stats := st.stats, snapshots := st.snapshots,
                finalSnapshot :=
                  if P.saveIterations then some (mk_snapshot P.iterations st) else none,
                procIsFinal := P.saveIterations } := by
  unfold dynamic_polygon connect_vertices
  rw [hconn, if_pos rfl, hsorted]

def P_iter0 : Params :=
  { iterations := 0, maxRetries := 1, operations := [("split_offset", 1)],
    bounds := bounds_ex }

def out_iter0 : Output :=
  { points := [(0,0), (10,0), (10,10), (0,10)],
    stats := { succ := 0, failed := 0, opsUsed := [("split_offset", 0)] },
    snapshots := [], finalSnapshot := none, procIsFinal := false }

theorem dp_iter0_eval : dynamic_polygon sq_ex P_iter0 draws_square oracle_ex = .ok out_iter0 := by
  rw [dynamic_polygon_sorted_eq rfl (connect_angle_sort_of_sorted (by with_unfolding_all decide))]
  with_unfolding_all rfl

def P_two : Params :=
  { iterations := 0, maxRetries := 1, operations := [("split_offset", 1)],
    bounds := bounds_ex }

def out_two : Output :=
  { points := [(0,0), (10,10)],
    stats := { succ := 0, failed := 0, opsUsed := [("split_offset", 0)] },
    snapshots := [], finalSnapshot := none, procIsFinal := false }

theorem dp_two_eval : dynamic_polygon sq_ex P_two draws_two oracle_ex = .ok out_two := by
  rw [dynamic_polygon_sorted_eq rfl (connect_angle_sort_of_sorted (by with_unfolding_all decide))]
  with_unfolding_all rfl

def P_zero_w : Params :=
  { iterations := 0, maxRetries := 1,
    operations := [("split_offset", 0), ("sawtooth", 0)], bounds := bounds_ex }

def out_zero_w : Output :=
  { points := [(0,0), (10,0), (10,10), (0,10)],
    stats := { succ := 0, failed := 0,
               opsUsed := [("split_offset", 0), ("sawtooth", 0)] },
    snapshots := [], finalSnapshot := none, procIsFinal := false }

theorem dp_zero_w_eval :
    dynamic_polygon sq_ex P_zero_w draws_square oracle_ex = .ok out_zero_w := by
  rw [dynamic_polygon_sorted_eq rfl (connect_angle_sort_of_sorted (by with_unfolding_all decide))]
  with_unfolding_all rfl

def P_remove : Params :=
  { iterations := 1, maxRetries := 1, operations := [("remove_point", 1)],
    bounds := bounds_ex, saveIterations := true, snapshotInterval := 1 }

def out_remove : Output :=
  { points := [(10,0), (10,10), (0,10)],
    stats := { succ := 1, failed := 0, opsUsed := [("remove_point", 1)] },
    snapshots :=
      [ { iter := 0, points := [(0,0), (10,0), (10,10), (0,10)],
          succAtEmit := 0, failedAtEmit := 0, opsUsedAtEmit := [("remove_point", 0)] },
        { iter := 1, points := [(10,0), (10,10), (0,10)],
          succAtEmit := 1, failedAtEmit := 0, opsUsedAtEmit := [("remove_point", 1)] } ],
    finalSnapshot := some
      { iter := 1, points := [(10,0), (10,10), (0,10)],
        succAtEmit := 1, failedAtEmit := 0, opsUsedAtEmit := [("remove_point", 1)] },
    procIsFinal := true }

theorem dp_remove_eval :
    dynamic_polygon sq_ex P_remove draws_square oracle_ex = .ok out_remove := by
  rw [dynamic_polygon_sorted_eq rfl (connect_angle_sort_of_sorted (by with_unfolding_all decide))]
  with_unfolding_all rfl

def st_square : DState :=
  { points := [(0,0), (10,0), (10,10), (0,10)],
    distortable := [(0,0), (10,0), (10,10), (0,10)],
    centroid := (5, 5),
    stats := { succ := 0, failed := 0, opsUsed := [("remove_point", 0)] },
    snapshots := [] }

def P_rm_nosave : Params :=
  { iterations := 1, maxRetries := 1, operations := [("remove_point", 1)],
    bounds := bounds_ex }

def st_tri : DState :=
  { points := [(10,0), (10,10), (0,10)],
    distortable := [(10,0), (10,10), (0,10)],
    centroid := (20/3, 20/3),
    stats := { succ := 1, failed := 0, opsUsed := [("remove_point", 1)] },
    snapshots := [] }

theorem run_loop_rm_eval :
    run_loop sq_ex P_rm_nosave oracle_ex 0 1 st_square = .ok st_tri := by
  with_unfolding_all rfl

/-! ### The claims -/

/-- C1 (amended): the evolution loop only ever installs boundaries that pass
`_is_valid_polygon` — after every accepted mutation the boundary has at least
3 points and no two non-adjacent edges (pairs sharing no vertex, wrap-around
included) intersect, and validity, once true, persists across iterations.
The initial boundary, however, is emitted unvalidated (see the
counterexample), so the property holds at every iteration boundary only when
the rounded initial boundary is itself valid. -/
theorem C1_boundary_validity {sq : ℚ → ℚ} {P : Params} {oracles : ℕ → IterOracle}
    {n i : ℕ} {st st' : DState}
    (h : run_loop sq P oracles i n st = .ok st') :
    (st'.points = st.points ∨ is_valid_polygon st'.points = true) ∧
    (is_valid_polygon st.points = true → is_valid_polygon st'.points = true) ∧
    (is_valid_polygon st'.points = true ↔
      3 ≤ st'.points.length ∧
        ∀ a b, a < st'.points.length → b < st'.points.length → a + 2 ≤ b →
          ¬(a = 0 ∧ b = st'.points.length - 1) →
          segments_intersect (st'.points.getD a (0,0))
            (st'.points.getD ((a+1) % st'.points.length) (0,0))
            (st'.points.getD b (0,0))
            (st'.points.getD ((b+1) % st'.points.length) (0,0)) = false) := by
  obtain ⟨h1, h2⟩ := run_loop_valid h
  exact ⟨h1, h2, is_valid_polygon_iff _⟩

/-- Witness for C1 (amended): a concrete one-iteration run whose accepted
`remove_point` boundary is validated. -/
theorem C1_boundary_validity_witness :
    (st_tri.points = st_square.points ∨ is_valid_polygon st_tri.points = true) ∧
    (is_valid_polygon st_square.points = true → is_valid_polygon st_tri.points = true) ∧
    (is_valid_polygon st_tri.points = true ↔
      3 ≤ st_tri.points.length ∧
        ∀ a b, a < st_tri.points.length → b < st_tri.points.length → a + 2 ≤ b →
          ¬(a = 0 ∧ b = st_tri.points.length - 1) →
          segments_intersect (st_tri.points.getD a (0,0))
            (st_tri.points.getD ((a+1) % st_tri.points.length) (0,0))
            (st_tri.points.getD b (0,0))
            (st_tri.points.getD ((b+1) % st_tri.points.length) (0,0)) = false) :=
  C1_boundary_validity run_loop_rm_eval

/-- Counterexample for C1 as stated: a `vertices = 2` call (the parameter
layer accepts any int) succeeds and emits its initial, unvalidated boundary
with only two points — in particular it fails the code's own validator. -/
theorem C1_counterexample :
    dynamic_polygon sq_ex P_two draws_two oracle_ex = .ok out_two ∧
    out_two.points.length = 2 ∧ is_valid_polygon out_two.points = false :=
  ⟨dp_two_eval, rfl, by decide⟩

/-- C2: every point of every emitted polygon — the main polygon, every
snapshot, and the final snapshot — lies inclusively within the integer
bounds rectangle, provided the vertex draws do (which is what
`random.uniform(x1, x2)` guarantees for a genuine rectangle): new points are
rounded and bounds-checked inside each operation before insertion, and
rounding keeps values between integer bounds. -/
theorem C2_points_within_bounds {sq : ℚ → ℚ} {P : Params} {draws : List QPt}
    {oracles : ℕ → IterOracle} {out : Output}
    (hd : ∀ q ∈ draws, (P.bounds.x1 : ℚ) ≤ q.1 ∧ q.1 ≤ (P.bounds.x2 : ℚ) ∧
          (P.bounds.y1 : ℚ) ≤ q.2 ∧ q.2 ≤ (P.bounds.y2 : ℚ))
    (h : dynamic_polygon sq P draws oracles = .ok out) :
    (∀ x ∈ out.points, is_within_bounds x P.bounds = true) ∧
    (∀ s ∈ out.snapshots, ∀ x ∈ s.points, is_within_bounds x P.bounds = true) ∧
    (∀ snap, out.finalSnapshot = some snap →
      ∀ x ∈ snap.points, is_within_bounds x P.bounds = true) := by
  obtain ⟨st, hrl, hpts, hstats, hsnaps, hfinal, hisf⟩ := dynamic_polygon_ok h
  obtain ⟨hb0, hs0⟩ := initial_state_in_bounds hd
  obtain ⟨hb, hs⟩ := run_loop_bounds hb0 hs0 hrl
  refine ⟨?_, ?_, ?_⟩
  · rw [hpts]
    exact hb
  · rw [hsnaps]
    exact hs
  · intro snap hsnap x hx
    have hp := hfinal snap hsnap
    rw [hp] at hx
    exact hb x hx

/-- Witness for C2: the snapshotting `remove_point` run, with draws inside
the bounds rectangle. -/
theorem C2_points_within_bounds_witness :
    (∀ x ∈ out_remove.points, is_within_bounds x P_remove.bounds = true) ∧
    (∀ s ∈ out_remove.snapshots, ∀ x ∈ s.points,
      is_within_bounds x P_remove.bounds = true) ∧
    (∀ snap, out_remove.finalSnapshot = some snap →
      ∀ x ∈ snap.points, is_within_bounds x P_remove.bounds = true) :=
  C2_points_within_bounds (by with_unfolding_all decide) dp_remove_eval

/-- C3 (amended): an all-zero weighted operation list is NOT rejected by
parameter conversion (`convert_weighted_list` checks only non-negativity and
known names — there is no total-weight check); the failure surfaces as a
`ValueError` raised inside the first loop iteration, before any mutation is
attempted, and therefore only when `iterations ≥ 1`. -/
theorem C3_all_zero_weights {sq : ℚ → ℚ} {P : Params} {draws : List QPt}
    {oracles : ℕ → IterOracle}
    (hconn : P.connect = "angle_sort")
    (hops : P.operations ≠ [])
    (hw : ∀ ow ∈ P.operations, ow.2 = 0)
    (hn : 1 ≤ P.iterations) :
    (∀ choices, (∀ ow ∈ P.operations, ow.1 ∈ choices) →
      convert_weighted_list P.operations choices = .ok P.operations) ∧
    dynamic_polygon sq P draws oracles =
      .error "No operations with positive weights available" := by
  constructor
  · intro choices hchoice
    have h1 : P.operations.find? (fun ow => decide (ow.2 < 0)) = none := by
      rw [List.find?_eq_none]
      intro ow how
      simp [hw ow how]
    have h2 : P.operations.find? (fun ow => !(choices.contains ow.1)) = none := by
      rw [List.find?_eq_none]
      intro ow how
      have hc : choices.contains ow.1 = true := List.elem_iff.mpr (hchoice ow how)
      intro hcon
      rw [hc] at hcon
      simp at hcon
    unfold convert_weighted_list
    rw [if_neg (fun hc => hops (List.length_eq_zero.mp hc)), h1, h2]
  · have hel : (eligible_ops P).length = 0 := by
      unfold eligible_ops
      rw [List.filter_eq_nil_iff.mpr]
      · rfl
      · intro ow how
        rw [hw ow how]
        simp
    obtain ⟨m, hm⟩ : ∃ m, P.iterations = m + 1 := ⟨P.iterations - 1, by omega⟩
    unfold dynamic_polygon connect_vertices
    rw [hconn, if_pos rfl]
    dsimp only
    rw [hm, run_loop_all_zero hel]

def P_zero_w1 : Params :=
  { iterations := 1, maxRetries := 1, operations := [("split_offset", 0)],
    bounds := bounds_ex }

/-- Witness for C3 (amended): one zero-weight operation, one iteration. -/
theorem C3_all_zero_weights_witness :
    (∀ choices, (∀ ow ∈ P_zero_w1.operations, ow.1 ∈ choices) →
      convert_weighted_list P_zero_w1.operations choices = .ok P_zero_w1.operations) ∧
    dynamic_polygon sq_ex P_zero_w1 draws_square oracle_ex =
      .error "No operations with positive weights available" :=
  @C3_all_zero_weights sq_ex P_zero_w1 draws_square oracle_ex rfl
    (by simp [P_zero_w1]) (by simp [P_zero_w1]) (by decide)

/-- Counterexample for C3 as stated: with every weight zero the parameter
conversion succeeds, and with `iterations = 0` the whole call succeeds and
returns a polygon — no parameter error is raised before (or by) the driver. -/
theorem C3_counterexample :
    convert_weighted_list [("split_offset", 0), ("sawtooth", 0)] operation_choices =
      .ok [("split_offset", 0), ("sawtooth", 0)] ∧
    dynamic_polygon sq_ex P_zero_w draws_square oracle_ex = .ok out_zero_w :=
  ⟨by with_unfolding_all rfl, dp_zero_w_eval⟩

/-- C4 (code bug): snapshots are not self-contained.  `stats.copy()` is a
shallow copy, so every snapshot's `stats['operations_used']` is the same dict
object as the live one: at emission the iteration-0 snapshot recorded the
value `[("remove_point", 0)]` (the ghost field `opsUsedAtEmit`), but after
the call that shared dict — modelled by the final `out.stats.opsUsed`, which
is what any later reader of the snapshot sees — reads `[("remove_point", 1)]`.
Likewise `final_snapshot.attrs = polygon.attrs.copy()` shares the
`'procedure'` dict, so `final_snapshot.attrs['procedure']['is_final'] = True`
also marks the MAIN polygon (`procIsFinal = true`). -/
theorem C4_snapshot_aliasing_bug :
    dynamic_polygon sq_ex P_remove draws_square oracle_ex = .ok out_remove ∧
    (out_remove.snapshots.getD 0
        { iter := 0, points := [], succAtEmit := 0, failedAtEmit := 0,
          opsUsedAtEmit := [] }).opsUsedAtEmit = [("remove_point", 0)] ∧
    out_remove.stats.opsUsed = [("remove_point", 1)] ∧
    out_remove.procIsFinal = true :=
  ⟨dp_remove_eval, rfl, rfl, rfl⟩

/-- C5: when the weighted list is usable but every one of the `max_retries`
attempts of an iteration fails, the iteration returns normally (no error is
surfaced), the boundary, distortable set and centroid are unchanged, only the
failure counter moves (by exactly `max_retries`), and the loop simply
proceeds to the next iteration — there is no escalation to a call-level
error. -/
theorem C5_exhaustion_not_fatal {sq : ℚ → ℚ} {P : Params} {oracles : ℕ → IterOracle}
    {i n : ℕ} {st : DState}
    (hel : (eligible_ops P).length ≠ 0)
    (hnone : (iter_attempts sq P st (oracles i)).2 = none) :
    ∃ st', run_iteration sq P st (oracles i) i = .ok st' ∧
      st'.points = st.points ∧ st'.distortable = st.distortable ∧
      st'.centroid = st.centroid ∧
      st'.stats.succ = st.stats.succ ∧
      st'.stats.failed = st.stats.failed + P.maxRetries ∧
      st'.stats.opsUsed = st.stats.opsUsed ∧
      run_loop sq P oracles i (n + 1) st = run_loop sq P oracles (i + 1) n st' := by
  obtain ⟨st', hit, h1, h2, h3, h4, h5, h6⟩ := run_iteration_exhausted hel hnone
  refine ⟨st', hit, h1, h2, h3, h4, h5, h6, ?_⟩
  rw [run_loop, hit]

def P_fail : Params :=
  { iterations := 1, maxRetries := 2, operations := [("split_offset", 1)],
    bounds := bounds_ex, minSegLength := 0 }

def st_sq_so : DState :=
  { points := [(0,0), (10,0), (10,10), (0,10)],
    distortable := [(0,0), (10,0), (10,10), (0,10)],
    centroid := (5, 5),
    stats := { succ := 0, failed := 0, opsUsed := [("split_offset", 0)] },
    snapshots := [] }

def oracle_fail : ℕ → IterOracle := fun _ =>
  { segR := 5, segK := 0, opIdx := 0,
    att := fun _ => { t := 1/2, perp := (0, -1), offset := 100 } }

/-- Witness for C5: a `split_offset` whose projected point lands far outside
the bounds on both retries. -/
theorem C5_exhaustion_not_fatal_witness :
    ∃ st', run_iteration sq_ex P_fail st_sq_so (oracle_fail 0) 0 = .ok st' ∧
      st'.points = st_sq_so.points ∧ st'.distortable = st_sq_so.distortable ∧
      st'.centroid = st_sq_so.centroid ∧
      st'.stats.succ = st_sq_so.stats.succ ∧
      st'.stats.failed = st_sq_so.stats.failed + P_fail.maxRetries ∧
      st'.stats.opsUsed = st_sq_so.stats.opsUsed ∧
      run_loop sq_ex P_fail oracle_fail 0 (0 + 1) st_sq_so =
        run_loop sq_ex P_fail oracle_fail (0 + 1) 0 st' :=
  C5_exhaustion_not_fatal (by with_unfolding_all decide) (by with_unfolding_all rfl)

/-- C6: the final statistics of every completed call satisfy
`successful_modifications + failed_attempts ≤ iterations · max_retries` and
`successful_modifications ≤ iterations`: each iteration makes at most
`max_retries` counted attempts and at most one of them is a success. -/
theorem C6_statistics_bounds {sq : ℚ → ℚ} {P : Params} {draws : List QPt}
    {oracles : ℕ → IterOracle} {out : Output}
    (h : dynamic_polygon sq P draws oracles = .ok out) :
    out.stats.succ + out.stats.failed ≤ P.iterations * P.maxRetries ∧
    out.stats.succ ≤ P.iterations := by
  obtain ⟨st, hrl, hpts, hstats, -, -, -⟩ := dynamic_polygon_ok h
  have hls := run_loop_stats hrl
  rw [initial_state_stats] at hls
  dsimp only at hls
  rw [hstats]
  omega

/-- Witness for C6: the one-iteration `remove_point` run. -/
theorem C6_statistics_bounds_witness :
    out_remove.stats.succ + out_remove.stats.failed ≤
      P_remove.iterations * P_remove.maxRetries ∧
    out_remove.stats.succ ≤ P_remove.iterations :=
  C6_statistics_bounds dp_remove_eval

/-- C7: the distortable set stays in sync with the boundary.  A successful
`remove_point` removes exactly the indexed vertex from the boundary and that
point's first occurrence from the distortable list; a successful
`distort_original` either leaves both untouched (centroid coincidence) or
replaces the chosen old point by the same new coordinate at its first
occurrence in boundary and distortable list alike; and across every
successful iteration the distortable multiset stays included in the boundary
multiset, so every distortable point is a current boundary point. -/
theorem C7_distortable_sync :
    (∀ (points : List Pt) (idx : ℕ) (distortable np nd : List Pt),
      op_remove_point points idx distortable = .ok (np, nd) →
      np = points.eraseIdx idx ∧
      nd = remove_first distortable (points.getD idx (0,0))) ∧
    (∀ (points : List Pt) (projectionMax : ℚ) (directionBias : String)
        (centroid : QPt) (bounds : Bounds) (distortable : List Pt)
        (a : AttemptOracle) (np nd : List Pt),
      op_distort_original points projectionMax directionBias centroid bounds
          distortable a = .ok (np, nd) →
      (np = points ∧ nd = distortable) ∨
        (∃ newCoord,
          np = points.set (index_of_pt points
                (distortable.getD (a.choice % distortable.length) (0,0))) newCoord ∧
          nd = distortable.set (index_of_pt distortable
                (distortable.getD (a.choice % distortable.length) (0,0))) newCoord ∧
          is_within_bounds newCoord bounds = true)) ∧
    (∀ (sq : ℚ → ℚ) (P : Params) (st : DState) (o : IterOracle) (it : ℕ)
        (st' : DState),
      (st.distortable : Multiset Pt) ≤ (st.points : Multiset Pt) →
      run_iteration sq P st o it = .ok st' →
      (st'.distortable : Multiset Pt) ≤ (st'.points : Multiset Pt) ∧
      ∀ p ∈ st'.distortable, p ∈ st'.points) := by
  refine ⟨?_, ?_, ?_⟩
  · intro points idx distortable np nd h
    by_cases hl : points.length ≤ 3
    · rw [op_remove_point_err hl] at h
      exact absurd h (by simp)
    · rw [op_remove_point_eq (by omega)] at h
      injection h with h
      injection h with h1 h2
      exact ⟨h1.symm, h2.symm⟩
  · intro points pm bias centroid bounds distortable a np nd h
    exact op_distort_original_shape h
  · intro sq P st o it st' hd hit
    have hle := run_iteration_le hd hit
    refine ⟨hle, ?_⟩
    intro p hp
    exact Multiset.mem_coe.mp (Multiset.mem_of_le hle (Multiset.mem_coe.mpr hp))

def pts5 : List Pt := [(0,0), (4,0), (2,2), (4,4), (0,4)]

def a5 : AttemptOracle := { choice := 2 }

/-- Witness for C7: a concrete `remove_point`, a concrete `distort_original`
(centroid coincidence), and a concrete successful iteration. -/
theorem C7_distortable_sync_witness :
    (([(10,0), (10,10), (0,10)] : List Pt) =
        ([(0,0), (10,0), (10,10), (0,10)] : List Pt).eraseIdx 0 ∧
      ([(10,0), (10,10), (0,10)] : List Pt) =
        remove_first [(0,0), (10,0), (10,10), (0,10)]
          (([(0,0), (10,0), (10,10), (0,10)] : List Pt).getD 0 (0,0))) ∧
    ((pts5 = pts5 ∧ pts5 = pts5) ∨
      (∃ newCoord,
        pts5 = pts5.set (index_of_pt pts5
              (pts5.getD (a5.choice % pts5.length) (0,0))) newCoord ∧
        pts5 = pts5.set (index_of_pt pts5
              (pts5.getD (a5.choice % pts5.length) (0,0))) newCoord ∧
        is_within_bounds newCoord bounds_ex = true)) ∧
    ((st_tri.distortable : Multiset Pt) ≤ (st_tri.points : Multiset Pt) ∧
      ∀ p ∈ st_tri.distortable, p ∈ st_tri.points) := by
  refine ⟨?_, ?_, ?_⟩
  · exact C7_distortable_sync.1 _ 0 _ _ _ (by with_unfolding_all rfl)
  · exact C7_distortable_sync.2.1 pts5 1 "random" (2,2) bounds_ex pts5 a5 pts5 pts5
      (by with_unfolding_all rfl)
  · exact C7_distortable_sync.2.2 sq_ex P_rm_nosave st_square (oracle_ex 0) 0 st_tri
      (le_refl _) (by with_unfolding_all rfl)

/-- C8: `remove_point` refuses when the boundary has exactly 3 vertices
(returning the error unchanged-boundary outcome), and on a larger boundary
it deletes exactly the indexed vertex: the result is one shorter, vertices
before the index are untouched, and vertices after it shift down by one,
which merges the two edges adjacent to the removed vertex. -/
theorem C8_remove_point_behavior :
    (∀ (points : List Pt) (idx : ℕ) (distortable : List Pt),
      points.length = 3 →
      op_remove_point points idx distortable =
        .error "Cannot remove point - polygon must have at least 3 vertices") ∧
    (∀ (points : List Pt) (idx : ℕ) (distortable : List Pt),
      3 < points.length → idx < points.length →
      op_remove_point points idx distortable =
        .ok (points.eraseIdx idx,
             remove_first distortable (points.getD idx (0,0))) ∧
      (points.eraseIdx idx).length = points.length - 1 ∧
      (∀ j, j < idx → (points.eraseIdx idx).getD j (0,0) = points.getD j (0,0)) ∧
      (∀ j, idx ≤ j → j < points.length - 1 →
        (points.eraseIdx idx).getD j (0,0) = points.getD (j+1) (0,0))) := by
  constructor
  · intro points idx distortable h3
    exact op_remove_point_err h3.le
  · intro points idx distortable h3 hidx
    have hlen : (points.eraseIdx idx).length = points.length - 1 :=
      List.length_eraseIdx_of_lt hidx
    refine ⟨op_remove_point_eq h3, hlen, ?_, ?_⟩
    · intro j hj
      have hj1 : j < (points.eraseIdx idx).length := by omega
      have hj2 : j < points.length := by omega
      rw [List.getD_eq_getElem _ (0,0) hj1, List.getD_eq_getElem _ (0,0) hj2]
      exact List.getElem_eraseIdx_of_lt points idx j hj1 hj
    · intro j hij hj
      have hj1 : j < (points.eraseIdx idx).length := by omega
      have hj2 : j + 1 < points.length := by omega
      rw [List.getD_eq_getElem _ (0,0) hj1, List.getD_eq_getElem _ (0,0) hj2]
      exact List.getElem_eraseIdx_of_ge points idx j hj1 hij

/-- Witness for C8: a triangle rejects removal; removing vertex 1 of the
square drops exactly that vertex. -/
theorem C8_remove_point_behavior_witness :
    op_remove_point [(0,0), (10,0), (10,10)] 0 [(0,0), (10,0), (10,10)] =
      .error "Cannot remove point - polygon must have at least 3 vertices" ∧
    (op_remove_point [(0,0), (10,0), (10,10), (0,10)] 1
        [(0,0), (10,0), (10,10), (0,10)] =
      .ok (([(0,0), (10,0), (10,10), (0,10)] : List Pt).eraseIdx 1,
           remove_first [(0,0), (10,0), (10,10), (0,10)]
             (([(0,0), (10,0), (10,10), (0,10)] : List Pt).getD 1 (0,0))) ∧
      (([(0,0), (10,0), (10,10), (0,10)] : List Pt).eraseIdx 1).length =
        ([(0,0), (10,0), (10,10), (0,10)] : List Pt).length - 1 ∧
      (∀ j, j < 1 →
        (([(0,0), (10,0), (10,10), (0,10)] : List Pt).eraseIdx 1).getD j (0,0) =
          ([(0,0), (10,0), (10,10), (0,10)] : List Pt).getD j (0,0)) ∧
      (∀ j, 1 ≤ j → j < ([(0,0), (10,0), (10,10), (0,10)] : List Pt).length - 1 →
        (([(0,0), (10,0), (10,10), (0,10)] : List Pt).eraseIdx 1).getD j (0,0) =
          ([(0,0), (10,0), (10,10), (0,10)] : List Pt).getD (j+1) (0,0))) :=
  ⟨C8_remove_point_behavior.1 _ 0 _ rfl,
   C8_remove_point_behavior.2 _ 1 _ (by decide) (by decide)⟩

/-- C9: segment selection picks an eligible (≥ minimum-length) edge whenever
any qualifies, always returns an index below the boundary length (the
fallback to all edges raises no error), and in the degenerate all-zero-length
case falls back to the uniformly drawn index. -/
theorem C9_segment_selection {sq : ℚ → ℚ} {ps : List Pt} {minSeg : ℤ}
    {r : ℚ} {k : ℕ}
    (hsq : ∀ q, 0 ≤ sq q) (hk : k < ps.length) :
    (eligible_indices sq ps minSeg ≠ [] →
      select_segment sq ps minSeg r k ∈ eligible_indices sq ps minSeg) ∧
    select_segment sq ps minSeg r k < ps.length ∧
    ((∀ i, i < ps.length →
        dist_sq (ps.getD i (0,0)) (ps.getD ((i+1) % ps.length) (0,0)) = 0) →
      sq 0 = 0 → select_segment sq ps minSeg r k = k) := by
  refine ⟨?_, ?_, ?_⟩
  · intro hne
    exact select_segment_in_eligible hsq hne hk
  · exact select_segment_lt hk
  · intro hz hsq0
    exact select_segment_degenerate hz hsq0

def sqW : ℚ → ℚ := fun _ => 10

/-- Witness for C9: the unit square with minimum segment length 10 and a
mid-range draw. -/
theorem C9_segment_selection_witness :
    (eligible_indices sqW [(0,0), (10,0), (10,10), (0,10)] 10 ≠ [] →
      select_segment sqW [(0,0), (10,0), (10,10), (0,10)] 10 5 2 ∈
        eligible_indices sqW [(0,0), (10,0), (10,10), (0,10)] 10) ∧
    select_segment sqW [(0,0), (10,0), (10,10), (0,10)] 10 5 2 <
      ([(0,0), (10,0), (10,10), (0,10)] : List Pt).length ∧
    ((∀ i, i < ([(0,0), (10,0), (10,10), (0,10)] : List Pt).length →
        dist_sq (([(0,0), (10,0), (10,10), (0,10)] : List Pt).getD i (0,0))
          (([(0,0), (10,0), (10,10), (0,10)] : List Pt).getD
            ((i+1) % ([(0,0), (10,0), (10,10), (0,10)] : List Pt).length) (0,0)) = 0) →
      sqW 0 = 0 → select_segment sqW [(0,0), (10,0), (10,10), (0,10)] 10 5 2 = 2) :=
  C9_segment_selection (fun _ => by norm_num [sqW]) (by decide)

/-- C10: when the chosen distortable point coincides with the centroid,
`distort_original` returns the boundary unchanged and this counts as a
SUCCESS: on a valid boundary the iteration accepts it on the first attempt,
bumps the success counter and the operation's usage count, and leaves the
boundary and distortable set identical. -/
theorem C10_distort_centroid_accepted {sq : ℚ → ℚ} {P : Params} {st : DState}
    {o : IterOracle} {it : ℕ}
    (hops : P.operations = [("distort_original", 1)])
    (hmr : 1 ≤ P.maxRetries)
    (hne : st.distortable.length ≠ 0)
    (hold : st.distortable.getD ((o.att 0).choice % st.distortable.length) (0,0)
              ∈ st.points)
    (hcx : ((st.distortable.getD ((o.att 0).choice % st.distortable.length)
              (0,0)).1 : ℚ) = st.centroid.1)
    (hcy : ((st.distortable.getD ((o.att 0).choice % st.distortable.length)
              (0,0)).2 : ℚ) = st.centroid.2)
    (hvalid : is_valid_polygon st.points = true) :
    ∃ st', run_iteration sq P st o it = .ok st' ∧
      st'.points = st.points ∧ st'.distortable = st.distortable ∧
      st'.stats.succ = st.stats.succ + 1 ∧
      st'.stats.opsUsed = bump_op st.stats.opsUsed "distort_original" ∧
      st'.stats.failed = st.stats.failed := by
  have helig : eligible_ops P = [("distort_original", 1)] := by
    unfold eligible_ops
    rw [hops]
    rfl
  have hchosen : chosen_op P o = "distort_original" := by
    unfold chosen_op
    rw [helig]
    simp [Nat.mod_one]
  have happ : apply_operation "distort_original" st.points (iter_seg sq P st o)
      P.projectionMax P.directionBias st.centroid P.bounds st.distortable
      P.independentDirections P.oppositeProb (o.att 0) =
      .ok (st.points, st.distortable) := by
    unfold apply_operation
    rw [if_neg (by decide), if_neg (by decide), if_neg (by decide),
      if_neg (by decide), if_pos rfl]
    exact op_distort_centroid_fixed hne hold hcx hcy
  obtain ⟨m, hm⟩ : ∃ m, P.maxRetries = m + 1 := ⟨P.maxRetries - 1, by omega⟩
  have hatt : iter_attempts sq P st o =
      ({ st.stats with
          succ := st.stats.succ + 1
          opsUsed := bump_op st.stats.opsUsed "distort_original" },
       some (st.points, st.distortable)) := by
    unfold iter_attempts
    rw [hchosen, hm]
    exact run_attempts_first_success happ hvalid
  unfold run_iteration
  rw [if_neg (by rw [helig]; decide)]
  rw [hatt]
  dsimp only
  split
  · exact ⟨_, rfl, rfl, rfl, rfl, rfl, rfl⟩
  · exact ⟨_, rfl, rfl, rfl, rfl, rfl, rfl⟩

def st5 : DState :=
  { points := pts5, distortable := pts5, centroid := (2, 2),
    stats := { succ := 0, failed := 0, opsUsed := [("distort_original", 0)] },
    snapshots := [] }

def P_distort : Params :=
  { iterations := 1, maxRetries := 1, operations := [("distort_original", 1)],
    bounds := bounds_ex }

def o5 : IterOracle :=
  { segR := 1, segK := 0, opIdx := 0, att := fun _ => { choice := 2 } }

/-- Witness for C10: the 5-gon whose vertex (2,2) is its own centroid;
drawing that vertex succeeds immediately with nothing moved. -/
theorem C10_distort_centroid_accepted_witness :
    ∃ st', run_iteration sq_ex P_distort st5 o5 0 = .ok st' ∧
      st'.points = st5.points ∧ st'.distortable = st5.distortable ∧
      st'.stats.succ = st5.stats.succ + 1 ∧
      st'.stats.opsUsed = bump_op st5.stats.opsUsed "distort_original" ∧
      st'.stats.failed = st5.stats.failed :=
  C10_distort_centroid_accepted rfl (by decide) (by decide) (by decide)
    (by with_unfolding_all rfl) (by with_unfolding_all rfl) (by decide)

end ShapeStudio
